import Mathlib

/-!
Verification of the `pipobscure/s3` client library (the second, fetch-based
revision of `src/s3.ts`, which is the revision containing the multipart
engine).  The development shallowly embeds the string manipulation of the
canonicalizer/signer, the URL construction, the request preparation, the
copy response handling, and the multipart upload engine, and proves or
refutes the frozen claims about them.

Strings are JS strings; all character work is done on `List Char` (ASCII
in every relevant input), with `String.mk`/`String.data` at the boundary.
External collaborators (MD5, HMAC-SHA1, `encodeURIComponent`, UTF-8
decoding) are passed as function parameters: no claim depends on their
values.
-/

namespace S3

/-! ### JS string primitives -/

/-- Model of JS `String.prototype.toLowerCase` on one character (ASCII). -/
def jsCharLower (c : Char) : Char :=
  if 'A' ≤ c ∧ c ≤ 'Z' then Char.ofNat (c.toNat + 32) else c

/-- Model of JS `key.toLowerCase()` (ASCII inputs). -/
def jsLower (s : String) : String :=
  String.mk (s.data.map jsCharLower)

/-- Lexicographic comparison of character lists, mirroring the code-unit
comparison JS uses for `a < b` on strings (identical on ASCII). -/
def charListLe : List Char → List Char → Bool
  | [], _ => true
  | _ :: _, [] => false
  | a :: as, b :: bs => if a = b then charListLe as bs else decide (a < b)

/-- JS default string ordering used by `Array.prototype.sort()`. -/
def jsStrLe (a b : String) : Bool := charListLe a.data b.data

/-- Model of JS `key.startsWith(p)`. -/
def jsStartsWith (s p : String) : Bool := p.data.isPrefixOf s.data

/-- Stable insertion of `a` into `l`; together with `insertionSort` this is
an observably faithful model of JS `Array.prototype.sort` (stable, sorted
with respect to the comparator). -/
def insertSorted (le : α → α → Bool) (a : α) : List α → List α
  | [] => [a]
  | b :: bs => if le a b then a :: b :: bs else b :: insertSorted le a bs

/-- Stable sort, modelling JS `result.sort()`. -/
def insertionSort (le : α → α → Bool) : List α → List α
  | [] => []
  | a :: as => insertSorted le a (insertionSort le as)

/-! ### Canonicalizer (src/s3.ts lines 673-681, function `canonicalizeHeaders`) -/

/-- One step of the loop body of `canonicalizeHeaders`: lowercase the key,
keep it when it starts with `x-amz` and is not `x-amz-date`, rendered as
`key:val`. -/
def vendorLine? (kv : String × String) : Option String :=
  let k := jsLower kv.1
  if jsStartsWith k "x-amz" ∧ k ≠ "x-amz-date" then some (k ++ ":" ++ kv.2) else none

/-- `canonicalizeHeaders` of the source: collect the `key:val` lines of the
vendor headers and sort them with the default JS string sort. -/
def canonicalizeHeaders (headers : List (String × String)) : List String :=
  insertionSort jsStrLe (headers.filterMap vendorLine?)

/-! ### Signer (src/s3.ts lines 682-695, function `sign`) -/

/-- The canonical string built inside `sign`:
`[method, md5, type, date, ...awsheaders, resource].join('\n')`. -/
def signMessage (method md5 type date : String) (awsheaders : List String)
    (resource : String) : String :=
  String.intercalate "\n" ([method, md5, type, date] ++ awsheaders ++ [resource])

/-- `sign` itself: base64 HMAC-SHA1 of the canonical string.  The HMAC is an
external collaborator, passed in as `hmac`. -/
def sign (hmac : String → String → String) (secret method md5 type date : String)
    (awsheaders : List String) (resource : String) : String :=
  hmac secret (signMessage method md5 type date awsheaders resource)

/-! ### Signed resource string (src/s3.ts lines 355-362, inside `#request`) -/

/-- `AWSParams`, the fixed query-parameter whitelist of the source. -/
def AWSParams : List String :=
  ["acl", "lifecycle", "location", "logging", "notification", "partNumber",
   "policy", "requestPayment", "uploadId", "uploads", "versionId",
   "versioning", "versions", "website"]

/-- The query loop of `#request`: walk `url.searchParams` in order, skip
parameters outside `AWSParams`, and append `?k=enc(v)` / `&k=enc(v)`
(or just the name when the value is empty, JS falsiness of `val`). -/
def queryRender (enc : String → String) : Bool → String → List (String × String) → String
  | _, acc, [] => acc
  | first, acc, (k, v) :: rest =>
    if k ∈ AWSParams then
      queryRender enc false
        (acc ++ (if first then "?" else "&") ++ k ++ (if v ≠ "" then "=" ++ enc v else ""))
        rest
    else queryRender enc first acc rest

/-- The signed resource string of `#request`:
`${hostBased ? `/bucket` : ''}${url.pathname}` followed by the whitelisted
query parameters in URL order. -/
def resourceString (hostBased : Bool) (bucket pathname : String)
    (params : List (String × String)) (enc : String → String) : String :=
  queryRender enc true ((if hostBased then "/" ++ bucket else "") ++ pathname) params

/-! ### URL construction (src/s3.ts lines 336-348, method `#url`) -/

/-- Worker for JS `s.split(/\/+/)`: splits at maximal runs of `'/'`,
keeping the empty pieces JS produces at the borders.  `inRun` records
whether we are inside a run of slashes. -/
def splitGo : List Char → List Char → Bool → List (List Char)
  | [], acc, _ => [acc.reverse]
  | c :: rest, acc, inRun =>
    if c = '/' then
      match inRun with
      | true => splitGo rest acc true
      | false => acc.reverse :: splitGo rest [] true
    else splitGo rest (c :: acc) false

/-- JS `` `/${...}`.split(/\/+/) `` as a list of strings. -/
def splitSlashPieces (s : String) : List String :=
  (splitGo s.data [] false).map String.mk

/-- JS `pieces.join('/')` at the character level. -/
def joinSlash : List (List Char) → List Char
  | [] => []
  | [p] => p
  | p :: q :: ps => p ++ '/' :: joinSlash (q :: ps)

/-- `s.split(/\/+/).join('/')` of the source. -/
def jsCollapsePath (s : String) : String :=
  String.mk (joinSlash (splitGo s.data [] false))

/-- The pathname built by `#url`: `/${bucket}.${endpoint}` hosting uses
`/${filename}`, path-based uses `/${bucket}/${filename}`, both with slash
runs collapsed. -/
def urlPathname (hostBased : Bool) (bucket filename : String) : String :=
  if hostBased then jsCollapsePath ("/" ++ filename)
  else jsCollapsePath ("/" ++ bucket ++ "/" ++ filename)

/-! ### Header records

JS header objects `Record<string, string>` are modelled as association
lists in insertion order (the order `Object.entries` iterates). -/

/-- Property read `hdrs[k]` (`undefined` becomes `none`). -/
def recordGet : List (String × String) → String → Option String
  | [], _ => none
  | kv :: rest, k => if kv.1 = k then some kv.2 else recordGet rest k

/-- Property write `hdrs[k] = v`: overwrite in place when the key exists,
append otherwise (JS object key-order semantics; JS objects never hold a
key twice). -/
def recordSet : List (String × String) → String → String → List (String × String)
  | [], k, v => [(k, v)]
  | kv :: rest, k, v => if kv.1 = k then (k, v) :: rest else kv :: recordSet rest k v

/-! ### Request preparation (src/s3.ts lines 349-381, method `#request`) -/

/-- JS truthiness of `sendbody?.length`: false for a missing body and for a
zero-length buffer. -/
def jsBodyNonempty : Option (List Nat) → Bool
  | none => false
  | some b => b.length ≠ 0

/-- The canonical string as `#request` assembles it for `sign`:
`sign(secret, method, hdrs['Content-MD5'] ?? '', hdrs['Content-Type'] ?? '',
hdrs.Date, canonicalizeHeaders(hdrs), resource)`. -/
def requestCanonicalMessage (method : String) (hdrs : List (String × String))
    (resource : String) : String :=
  signMessage method ((recordGet hdrs "Content-MD5").getD "")
    ((recordGet hdrs "Content-Type").getD "")
    ((recordGet hdrs "Date").getD "")
    (canonicalizeHeaders hdrs) resource

/-- The prepared request: final headers, the signed resource, the canonical
string, and the query parameters left on the wire URL (rev-2 `#request`
never deletes any search parameter from the URL it fetches). -/
structure PreparedRequest where
  headers : List (String × String)
  resource : String
  message : String
  urlParams : List (String × String)
deriving DecidableEq

/-- The header/signing pipeline of `#request`.  `md5` (base64 MD5),
`hmac` (base64 HMAC-SHA1) and `enc` (`encodeURIComponent`) are external
collaborators; `date`/`host` stand for `new Date().toUTCString()` and
`url.host`. -/
def prepareRequest (key secret : String) (hmac : String → String → String)
    (md5 : List Nat → String) (enc : String → String) (method : String)
    (hostBased : Bool) (bucket pathname : String) (params : List (String × String))
    (hdrs0 : List (String × String)) (sendbody : Option (List Nat))
    (date host : String) : PreparedRequest :=
  let resource := resourceString hostBased bucket pathname params enc
  let hdrs := recordSet hdrs0 "Date" date
  let hdrs := recordSet hdrs "Host" host
  let hdrs :=
    if jsBodyNonempty sendbody then
      let b := sendbody.getD []
      let hdrs := recordSet hdrs "Content-Length" (toString b.length)
      let hdrs := recordSet hdrs "Content-MD5" (md5 b)
      recordSet hdrs "Content-Type" ((recordGet hdrs "Content-Type").getD "application/octet-stream")
    else hdrs
  let message := requestCanonicalMessage method hdrs resource
  let hdrs := recordSet hdrs "Authorization" ("AWS " ++ key ++ ":" ++ hmac secret message)
  ⟨hdrs, resource, message, params⟩

/-! ### Transport response handling (src/s3.ts lines 382-400, end of `#request`) -/

/-- The error object `#request` throws for a non-ok response:
`Object.assign(new Error(...), { text })`. -/
structure HttpErr where
  status : Nat
  statusText : String
  message : String
  text : Option String
deriving DecidableEq

/-- `response.ok` of the fetch API: status in the inclusive range 200-299. -/
def responseOk (status : Nat) : Bool := 200 ≤ status ∧ status ≤ 299

/-- What `#request` does with the response it observes: read the bytes,
throw for any non-ok status (message carries the status, `text` carries the
decoded body), return the content otherwise.  `utf8` is the external
`Buffer.prototype.toString('utf-8')`. -/
def handleResponse (utf8 : List Nat → String) (method urlStr : String)
    (status : Nat) (statusText : String) (bytes : List Nat) :
    Except HttpErr (List Nat) :=
  if responseOk status then .ok bytes
  else
    .error ⟨status, statusText,
      "HTTP(" ++ toString status ++ ") " ++ statusText ++ " [" ++ method ++ " " ++ urlStr ++ "]",
      some (utf8 bytes)⟩

/-- The `RequestInit` literal `#request` passes to `fetch`:
`{ method, headers, body }` — in particular it contains no `redirect`
member. -/
structure FetchInit where
  method : String
  headers : List (String × String)
  hasBody : Bool
  redirect : Option String
deriving DecidableEq

/-- The init object built at the `fetch` call site of `#request`. -/
def s3FetchInit (method : String) (headers : List (String × String))
    (hasBody : Bool) : FetchInit :=
  ⟨method, headers, hasBody, none⟩

/-- Modelled from the WHATWG fetch standard (an external collaborator of
this library): a request whose init omits `redirect` gets redirect mode
`"follow"`, under which the client transparently follows 3xx responses. -/
def effectiveRedirectMode (i : FetchInit) : String :=
  i.redirect.getD "follow"

/-! ### XML plucking and `copy` (src/s3.ts lines 526-546) -/

/-- A parsed XML element tree, abstracting the `xml-js` compact output the
source plucks from (`node?.Name?.[0]?._text?.[0]` chains). -/
inductive XNode where
  | elem (name : String) (children : List XNode)
  | txt (s : String)

/-- The child elements named `name` (the `node?.Name` array of `xml-js`). -/
def elemsNamed (ns : List XNode) (name : String) : List XNode :=
  ns.filter fun n =>
    match n with
    | .elem m _ => m = name
    | .txt _ => false

/-- The children of an element (empty for a text node). -/
def XNode.children : XNode → List XNode
  | .elem _ cs => cs
  | .txt _ => []

/-- The `_text` array of an element. -/
def XNode.texts : XNode → List String
  | .elem _ cs => cs.filterMap fun c =>
      match c with
      | .txt s => some s
      | .elem _ _ => none
  | .txt s => [s]

/-- `response?.CopyObjectResult?.[0]?.ETag?.[0]?._text?.[0]` of `copy`. -/
def pluckCopyEtag (doc : List XNode) : Option String := do
  let cor ← (elemsNamed doc "CopyObjectResult").head?
  let et ← (elemsNamed cor.children "ETag").head?
  et.texts.head?

/-- One JSON string-escape step of a `JSON.parse` string body (the escapes
an ETag can contain; unsupported escapes make the parse fail, as
`JSON.parse` would). -/
def jsonUnescape : List Char → Option (List Char)
  | [] => some []
  | '\\' :: c :: rest =>
    if c = '"' ∨ c = '\\' ∨ c = '/' then (fun t => c :: t) <$> jsonUnescape rest
    else if c = 'n' then (fun t => '\n' :: t) <$> jsonUnescape rest
    else if c = 't' then (fun t => '\t' :: t) <$> jsonUnescape rest
    else none
  | '\\' :: [] => none
  | '"' :: _ => none
  | c :: rest => (fun t => c :: t) <$> jsonUnescape rest

/-- `JSON.parse` applied to a value expected to be a JSON string literal
(how the source unquotes ETags); anything else is a `SyntaxError`. -/
def jsonParseString (s : String) : Except String String :=
  match s.data with
  | '"' :: rest =>
    if rest ≠ [] ∧ rest.getLast? = some '"' then
      match jsonUnescape rest.dropLast with
      | some t => .ok (String.mk t)
      | none => .error "SyntaxError"
    else .error "SyntaxError"
  | _ => .error "SyntaxError"

/-- The result computation of `copy` from the response body onward:
`if (!content) throw`; pluck the ETag text; `JSON.parse(etag ?? '""')`.
`content = none` models a `null` body. -/
def copyResult (content : Option (List XNode)) : Except String String :=
  match content with
  | none => .error "missing response"
  | some doc => jsonParseString ((pluckCopyEtag doc).getD "\"\"")

/-! ### Multipart engine (src/s3.ts lines 288, 316-321, 547-669, 697-713)

The engine is modelled as a deterministic interpreter over a `Net` of
response oracles (one per remote operation kind); every issued call is
recorded, together with its result, in a trace. -/

instance {ε α : Type} [DecidableEq ε] [DecidableEq α] : DecidableEq (Except ε α) := fun a b =>
  match a, b with
  | .error e, .error e' =>
    if h : e = e' then .isTrue (by rw [h]) else .isFalse (by simp [h])
  | .ok x, .ok y =>
    if h : x = y then .isTrue (by rw [h]) else .isFalse (by simp [h])
  | .error _, .ok _ => .isFalse (by simp)
  | .ok _, .error _ => .isFalse (by simp)

/-- `MIN_CHUNK_SIZE` of the source (5 MB). -/
def MIN_CHUNK_SIZE : Nat := 5242880

/-- The `Partial<AWShdrs>` argument of `put`/`#putStream`
(`AWSProperty = 'If-Match' | 'Content-Type'`). -/
structure AWShdrs where
  ifMatch : Option String := none
  contentType : Option String := none
deriving DecidableEq

/-- The header record a `Partial<AWShdrs>` value denotes (the only keys its
type admits are `If-Match` and `Content-Type`). -/
def awsRecord (h : AWShdrs) : List (String × String) :=
  (match h.ifMatch with
   | some v => [("If-Match", v)]
   | none => [])
    ++ (match h.contentType with
        | some v => [("Content-Type", v)]
        | none => [])

/-- The buffer branch of `put` (src/s3.ts lines 421-454) down to the
prepared request: default the content type, build the URL from the key,
and run `#request` with the body. -/
def putPrepare (key secret : String) (hmac : String → String → String)
    (md5 : List Nat → String) (enc : String → String) (hostBased : Bool)
    (bucket resource : String) (h : AWShdrs) (content : List Nat)
    (date host : String) : PreparedRequest :=
  let h := { h with contentType := some (h.contentType.getD "application/octet-stream") }
  prepareRequest key secret hmac md5 enc "PUT" hostBased bucket
    (urlPathname hostBased bucket resource) [] (awsRecord h) (some content) date host

/-- `UploadPart` of the source. -/
structure UploadPart where
  number : Nat
  etag : String
  sha1 : Option String := none
  sha256 : Option String := none
deriving DecidableEq

/-- Generator `partXML` of the source, as the list of yielded lines. -/
def partXML (p : UploadPart) : List String :=
  ["<Part>"]
    ++ (match p.sha1 with
        | some s => ["\t<ChecksumSHA1>" ++ s ++ "</ChecksumSHA1>"]
        | none => [])
    ++ (match p.sha256 with
        | some s => ["\t<ChecksumSHA256>" ++ s ++ "</ChecksumSHA256>"]
        | none => [])
    ++ ["\t<ETag>" ++ p.etag ++ "</ETag>",
        "\t<PartNumber>" ++ toString p.number ++ "</PartNumber>",
        "</Part>"]

/-- Generator `partsXML` of the source, as the list of yielded lines. -/
def partsXML (parts : List UploadPart) : List String :=
  ["<?xml version=\"1.0\" encoding=\"UTF-8\"?>",
   "<CompleteMultipartUpload xmlns=\"http://s3.amazonaws.com/doc/2006-03-01/\">"]
    ++ (parts.flatMap fun p => (partXML p).map (fun line => "\t" ++ line))
    ++ ["</CompleteMultipartUpload>", ""]

/-- The XML body `#commitMultipart` posts:
`Array.from(partsXML(parts)).join('\n')`. -/
def commitBody (parts : List UploadPart) : String :=
  String.intercalate "\n" (partsXML parts)

/-- A network call issued by the engine, with its arguments and result. -/
inductive Call where
  | start (result : Except String String)
  | part (number : Nat) (uploadId : String) (content : List Nat) (result : Except String String)
  | commitCall (uploadId : String) (parts : List UploadPart) (body : String)
      (result : Except String String)
  | abortCall (uploadId : String) (result : Except String Unit)
  | putCall (content : List Nat) (hdrs : AWShdrs) (result : Except String String)
deriving DecidableEq

/-- Oracles for the remote side: what each network operation would return
(`error` models a thrown exception). -/
structure Net where
  start : Except String String
  uploadPart : Nat → String → List Nat → Except String String
  commit : String → List UploadPart → Except String String
  abort : String → Except String Unit
  put : List Nat → AWShdrs → Except String String

/-- The error `#putStream` lets escape: the original error alone, or
`AggregateError([err, suberr])` when the abort also failed. -/
inductive PutErr where
  | single (e : String)
  | aggregate (e sub : String)
deriving DecidableEq

/-- The local mutable state of `#putStream`: `store`, `length`, `uploadId`,
`parts`, plus the call trace. -/
structure EngineState where
  store : List (List Nat)
  size : Nat
  uploadId : Option String
  parts : List UploadPart
  trace : List Call
deriving DecidableEq

/-- JS truthiness of the `uploadId` variable (`string | null`): truthy iff
non-null and non-empty. -/
def jsTruthyId : Option String → Bool
  | none => false
  | some s => s ≠ ""

/-- One flush: `content = Buffer.concat(store.splice(0, store.length), length);
length = 0; number = parts.length + 1; etag = await #uploadPart(...);
parts.push({etag, number})`.  Returns the new state and the thrown error,
if any. -/
def flushPart (net : Net) (s : EngineState) : EngineState × Option String :=
  let content := s.store.flatten
  let number := s.parts.length + 1
  let uid := s.uploadId.getD ""
  match net.uploadPart number uid content with
  | .error e =>
    ({ s with store := [], size := 0,
              trace := s.trace ++ [.part number uid content (.error e)] }, some e)
  | .ok etag =>
    ({ s with store := [], size := 0,
              parts := s.parts ++ [{ number := number, etag := etag }],
              trace := s.trace ++ [.part number uid content (.ok etag)] }, none)

/-- The body of the `for await` loop of `#putStream` for one chunk:
push the chunk, grow `length`, and when `length > MIN_CHUNK_SIZE` obtain
the upload id (`uploadId ?? await #startMultipart(name)`) and flush. -/
def consumeChunk (net : Net) (s : EngineState) (chunk : List Nat) :
    EngineState × Option String :=
  let s := { s with store := s.store ++ [chunk], size := s.size + chunk.length }
  if s.size > MIN_CHUNK_SIZE then
    match s.uploadId with
    | some _ => flushPart net s
    | none =>
      match net.start with
      | .error e => ({ s with trace := s.trace ++ [.start (.error e)] }, some e)
      | .ok id =>
        flushPart net { s with uploadId := some id, trace := s.trace ++ [.start (.ok id)] }
  else (s, none)

/-- The whole `for await` loop. -/
def runChunks (net : Net) : EngineState → List (List Nat) → EngineState × Option String
  | s, [] => (s, none)
  | s, c :: rest =>
    match consumeChunk net s c with
    | (s', none) => runChunks net s' rest
    | (s', some e) => (s', some e)

/-- The `catch` block of `#putStream`: abort when `uploadId` is truthy;
a failing abort aggregates both errors, otherwise the original error is
re-thrown. -/
def handleCatch (net : Net) (uploadId : Option String) (trace : List Call)
    (e : String) : Except PutErr String × List Call :=
  if jsTruthyId uploadId then
    let uid := uploadId.getD ""
    match net.abort uid with
    | .ok _ => (.error (.single e), trace ++ [.abortCall uid (.ok ())])
    | .error sub => (.error (.aggregate e sub), trace ++ [.abortCall uid (.error sub)])
  else (.error (.single e), trace)

/-- The `if (uploadId)` tail of the `try` block: flush a nonzero remainder
as the final part, then commit; errors fall into the `catch` block. -/
def finishMultipart (net : Net) (s : EngineState) : Except PutErr String × List Call :=
  let uid := s.uploadId.getD ""
  match (if s.size ≠ 0 then flushPart net s else (s, none)) with
  | (s', some e) => handleCatch net s'.uploadId s'.trace e
  | (s', none) =>
    match net.commit uid s'.parts with
    | .error e =>
      handleCatch net s'.uploadId
        (s'.trace ++ [.commitCall uid s'.parts (commitBody s'.parts) (.error e)]) e
    | .ok etag =>
      (.ok etag, s'.trace ++ [.commitCall uid s'.parts (commitBody s'.parts) (.ok etag)])

/-- The buffer branch of `put` as `#putStream` falls back to it:
default the content type to `application/octet-stream`, then issue the
single PUT. -/
def putBufferCall (net : Net) (content : List Nat) (hdrs : AWShdrs)
    (trace : List Call) : Except PutErr String × List Call :=
  let hdrs := { hdrs with contentType := some (hdrs.contentType.getD "application/octet-stream") }
  match net.put content hdrs with
  | .ok etag => (.ok etag, trace ++ [.putCall content hdrs (.ok etag)])
  | .error e => (.error (.single e), trace ++ [.putCall content hdrs (.error e)])

/-- `#putStream` end to end: run the loop, commit a multipart session when
one was started, abort on failure, and otherwise fall back to a single
direct put of the buffered bytes. -/
def putStreamRun (net : Net) (chunks : List (List Nat)) (hdrs : AWShdrs) :
    Except PutErr String × List Call :=
  match runChunks net ⟨[], 0, none, [], []⟩ chunks with
  | (s, some e) => handleCatch net s.uploadId s.trace e
  | (s, none) =>
    if jsTruthyId s.uploadId then finishMultipart net s
    else putBufferCall net s.store.flatten hdrs s.trace

/-! ## Record lemmas -/

theorem recordGet_set (r : List (String × String)) (k' v k : String) :
    recordGet (recordSet r k' v) k = if k = k' then some v else recordGet r k := by
  induction r with
  | nil => simp [recordSet, recordGet, eq_comm]
  | cons kv rest ih =>
    by_cases h1 : kv.1 = k'
    · by_cases h2 : k = k'
      · simp [recordSet, recordGet, h1, h2]
      · have h2' : ¬k' = k := fun hh => h2 hh.symm
        simp [recordSet, recordGet, h1, h2, h2']
    · by_cases h2 : kv.1 = k
      · have : ¬(k = k') := fun h => h1 (h2.trans h)
        simp [recordSet, recordGet, h1, h2, this]
      · simp [recordSet, recordGet, h1, h2, ih]

/-! ## Claim C9: zero-length body requests -/

/-- Claim C9: a request issued with a zero-length body buffer — as the
start-multipart POST is — is prepared exactly like a body-less request: no
Content-Length, Content-MD5 or Content-Type header is added, and the
content-md5 and content-type positions of the canonical string are empty
strings. -/
theorem c9_empty_body_request (key secret : String) (hmac : String → String → String)
    (md5 : List Nat → String) (enc : String → String) (method : String)
    (hostBased : Bool) (bucket pathname : String) (params : List (String × String))
    (hdrs0 : List (String × String)) (date host : String)
    (hL : recordGet hdrs0 "Content-Length" = none)
    (hM : recordGet hdrs0 "Content-MD5" = none)
    (hT : recordGet hdrs0 "Content-Type" = none) :
    prepareRequest key secret hmac md5 enc method hostBased bucket pathname params
        hdrs0 (some []) date host
      = prepareRequest key secret hmac md5 enc method hostBased bucket pathname params
        hdrs0 none date host
    ∧ recordGet (prepareRequest key secret hmac md5 enc method hostBased bucket pathname params
        hdrs0 (some []) date host).headers "Content-Length" = none
    ∧ recordGet (prepareRequest key secret hmac md5 enc method hostBased bucket pathname params
        hdrs0 (some []) date host).headers "Content-MD5" = none
    ∧ recordGet (prepareRequest key secret hmac md5 enc method hostBased bucket pathname params
        hdrs0 (some []) date host).headers "Content-Type" = none
    ∧ (prepareRequest key secret hmac md5 enc method hostBased bucket pathname params
        hdrs0 (some []) date host).message
      = signMessage method "" "" date
          (canonicalizeHeaders (recordSet (recordSet hdrs0 "Date" date) "Host" host))
          (resourceString hostBased bucket pathname params enc) := by
  refine ⟨rfl, ?_, ?_, ?_, ?_⟩ <;>
    simp [prepareRequest, jsBodyNonempty, recordGet_set, requestCanonicalMessage,
      hL, hM, hT]

/-- Witness for C9 at the concrete start-multipart call site
(`#startMultipart` posts `Buffer.alloc(0)` with an empty header record). -/
theorem c9_witness :
    recordGet ([] : List (String × String)) "Content-Length" = none
    ∧ recordGet (prepareRequest "K" "S" (fun _ _ => "SIG") (fun _ => "MD5") (fun s => s)
        "POST" false "bkt" "/bkt/key" [("uploads", "")] [] (some []) "D" "H").headers
        "Content-MD5" = none := by
  refine ⟨rfl, ?_⟩
  exact (c9_empty_body_request "K" "S" (fun _ _ => "SIG") (fun _ => "MD5") (fun s => s)
    "POST" false "bkt" "/bkt/key" [("uploads", "")] [] "D" "H" rfl rfl rfl).2.2.1

/-! ## Claim C6: put precondition headers -/

/-- Claim C6 (amended): a put carries `If-Match` exactly when the caller
passed an expected ETag; when the ETag is omitted the request carries no
precondition header at all — the code never adds `If-None-Match: *`. -/
theorem c6_put_preconditions_corrected (key secret : String)
    (hmac : String → String → String) (md5 : List Nat → String)
    (enc : String → String) (hostBased : Bool) (bucket resource : String)
    (h : AWShdrs) (content : List Nat) (date host : String) :
    (∀ v, h.ifMatch = some v →
      recordGet (putPrepare key secret hmac md5 enc hostBased bucket resource h content
        date host).headers "If-Match" = some v)
    ∧ (h.ifMatch = none →
      recordGet (putPrepare key secret hmac md5 enc hostBased bucket resource h content
        date host).headers "If-Match" = none)
    ∧ recordGet (putPrepare key secret hmac md5 enc hostBased bucket resource h content
        date host).headers "If-None-Match" = none := by
  obtain ⟨im, ct⟩ := h
  refine ⟨?_, ?_, ?_⟩
  · intro v hv
    cases im with
    | none => simp at hv
    | some w =>
      cases hv
      simp [putPrepare, prepareRequest, recordGet_set, awsRecord, recordGet, jsBodyNonempty]
      split <;> simp [recordGet_set, recordGet]
  · intro hv
    cases hv
    cases ct <;>
      · simp [putPrepare, prepareRequest, recordGet_set, awsRecord, recordGet, jsBodyNonempty]
        split <;> simp [recordGet_set, recordGet]
  · cases im <;> cases ct <;>
      · simp [putPrepare, prepareRequest, recordGet_set, awsRecord, recordGet, jsBodyNonempty]
        split <;> simp [recordGet_set, recordGet]

/-- Witness for C6 (amended), at a concrete expected ETag. -/
theorem c6_witness :
    recordGet (putPrepare "K" "S" (fun _ _ => "SIG") (fun _ => "MD5") (fun s => s)
      false "bkt" "key" ⟨some "\"etag\"", none⟩ [42] "D" "H").headers "If-Match"
      = some "\"etag\"" :=
  (c6_put_preconditions_corrected "K" "S" (fun _ _ => "SIG") (fun _ => "MD5") (fun s => s)
    false "bkt" "key" ⟨some "\"etag\"", none⟩ [42] "D" "H").1 "\"etag\"" rfl

/-- Counterexample for C6 as stated: with the expected ETag omitted the
prepared request carries no `If-None-Match` header (the claim demands
`If-None-Match: *`). -/
theorem c6_counterexample :
    recordGet (putPrepare "K" "S" (fun _ _ => "SIG") (fun _ => "MD5") (fun s => s)
      false "bkt" "key" ⟨none, none⟩ [42] "D" "H").headers "If-None-Match" = none := by
  decide

/-! ## Claim C2: the signed resource string -/

/-- Order-preserving rendering of a non-first query parameter. -/
def renderQueryTail (enc : String → String) : List (String × String) → String
  | [] => ""
  | (k, v) :: rest => "&" ++ k ++ (if v ≠ "" then "=" ++ enc v else "") ++ renderQueryTail enc rest

/-- Order-preserving rendering of a query parameter list. -/
def renderQueryList (enc : String → String) : List (String × String) → String
  | [] => ""
  | (k, v) :: rest => "?" ++ k ++ (if v ≠ "" then "=" ++ enc v else "") ++ renderQueryTail enc rest

theorem queryRender_spec (enc : String → String) :
    ∀ (l : List (String × String)) (acc : String) (first : Bool),
      queryRender enc first acc l
        = acc ++ (if first then renderQueryList enc (l.filter fun kv => decide (kv.1 ∈ AWSParams))
                  else renderQueryTail enc (l.filter fun kv => decide (kv.1 ∈ AWSParams))) := by
  intro l
  induction l with
  | nil => intro acc first; cases first <;> simp [queryRender, renderQueryList, renderQueryTail]
  | cons kv rest ih =>
    intro acc first
    obtain ⟨k, v⟩ := kv
    by_cases hw : k ∈ AWSParams
    · cases first <;>
        simp [queryRender, hw, ih, renderQueryList, renderQueryTail, String.append_assoc]
    · cases first <;> simp [queryRender, hw, ih]

/-- Claim C2 (amended): the signed resource string is the bucket-prefixed
path followed by exactly the whitelisted query parameters **in URL order**
(not sorted); parameters outside the whitelist never influence it, and the
wire URL of the prepared request keeps all its query parameters. -/
theorem c2_resource_whitelist_corrected (key secret : String)
    (hmac : String → String → String) (md5 : List Nat → String)
    (enc : String → String) (method : String) (hostBased : Bool)
    (bucket pathname : String) (params : List (String × String))
    (hdrs0 : List (String × String)) (body : Option (List Nat)) (date host : String) :
    resourceString hostBased bucket pathname params enc
      = ((if hostBased then "/" ++ bucket else "") ++ pathname)
          ++ renderQueryList enc (params.filter fun kv => decide (kv.1 ∈ AWSParams))
    ∧ resourceString hostBased bucket pathname params enc
      = resourceString hostBased bucket pathname
          (params.filter fun kv => decide (kv.1 ∈ AWSParams)) enc
    ∧ (prepareRequest key secret hmac md5 enc method hostBased bucket pathname params
        hdrs0 body date host).urlParams = params := by
  refine ⟨queryRender_spec enc params _ true, ?_, rfl⟩
  rw [resourceString, queryRender_spec enc params _ true,
    resourceString, queryRender_spec enc _ _ true, List.filter_filter]
  simp

/-- The resource string the claim describes: whitelisted query parameters
sorted (by name) rather than in URL order. -/
def resourceSortedByName (hostBased : Bool) (bucket pathname : String)
    (params : List (String × String)) (enc : String → String) : String :=
  ((if hostBased then "/" ++ bucket else "") ++ pathname)
    ++ renderQueryList enc
        (insertionSort (fun a b => jsStrLe a.1 b.1)
          (params.filter fun kv => decide (kv.1 ∈ AWSParams)))

/-- Counterexample for C2 as stated: two whitelisted parameters in
non-alphabetical URL order are signed in URL order, not sorted. -/
theorem c2_counterexample :
    resourceString false "bkt" "/bkt/key" [("versionId", "1"), ("acl", "")] (fun s => s)
        = "/bkt/key?versionId=1&acl"
    ∧ resourceSortedByName false "bkt" "/bkt/key" [("versionId", "1"), ("acl", "")] (fun s => s)
        = "/bkt/key?acl&versionId=1"
    ∧ resourceString false "bkt" "/bkt/key" [("versionId", "1"), ("acl", "")] (fun s => s)
        ≠ resourceSortedByName false "bkt" "/bkt/key" [("versionId", "1"), ("acl", "")]
          (fun s => s) := by
  refine ⟨by decide, by decide, by decide⟩

/-! ## Claim C7: transport status handling -/

/-- Claim C7 (amended): the response handler resolves with the content
exactly on a 2xx status and rejects any other status it observes — 3xx
included — with an error carrying the status and the response body; the
redirect-following itself, however, is left at the fetch default (see the
counterexample). -/
theorem c7_transport_status_corrected (utf8 : List Nat → String)
    (method urlStr statusText : String) (status : Nat) (bytes : List Nat) :
    (200 ≤ status ∧ status ≤ 299 →
      handleResponse utf8 method urlStr status statusText bytes = .ok bytes)
    ∧ (¬(200 ≤ status ∧ status ≤ 299) →
      handleResponse utf8 method urlStr status statusText bytes
        = .error ⟨status, statusText,
            "HTTP(" ++ toString status ++ ") " ++ statusText ++ " [" ++ method ++ " " ++ urlStr ++ "]",
            some (utf8 bytes)⟩)
    ∧ (300 ≤ status ∧ status ≤ 399 →
      ∃ he, handleResponse utf8 method urlStr status statusText bytes = .error he
        ∧ he.status = status ∧ he.text = some (utf8 bytes)) := by
  have h2xx : ∀ (h : 200 ≤ status ∧ status ≤ 299),
      handleResponse utf8 method urlStr status statusText bytes = .ok bytes := by
    intro h
    have hb : responseOk status = true := by simp [responseOk]; omega
    simp [handleResponse, hb]
  have hbad : ∀ (h : ¬(200 ≤ status ∧ status ≤ 299)),
      handleResponse utf8 method urlStr status statusText bytes
        = .error ⟨status, statusText,
            "HTTP(" ++ toString status ++ ") " ++ statusText ++ " [" ++ method ++ " " ++ urlStr ++ "]",
            some (utf8 bytes)⟩ := by
    intro h
    have hb : responseOk status = false := by simp [responseOk]; omega
    simp [handleResponse, hb]
  exact ⟨h2xx, hbad, fun h3 => ⟨_, hbad (by omega), rfl, rfl⟩⟩

/-- Witness for C7 (amended) at a success and at a redirect status. -/
theorem c7_witness :
    handleResponse (fun _ => "body") "GET" "u" 200 "OK" [1] = .ok [1]
    ∧ handleResponse (fun _ => "body") "GET" "u" 301 "M" [1]
      = .error ⟨301, "M",
          "HTTP(" ++ toString 301 ++ ") " ++ "M" ++ " [" ++ "GET" ++ " " ++ "u" ++ "]",
          some ((fun _ => "body") [1])⟩ :=
  ⟨(c7_transport_status_corrected (fun _ => "body") "GET" "u" "OK" 200 [1]).1 (by omega),
   (c7_transport_status_corrected (fun _ => "body") "GET" "u" "M" 301 [1]).2.1 (by omega)⟩

/-- Counterexample for C7 as stated: the `RequestInit` the code hands to
`fetch` contains no `redirect` member, so the request runs with the
standard default redirect mode `"follow"` — the HTTP client silently
follows a 3xx rather than never following one. -/
theorem c7_counterexample :
    (s3FetchInit "GET" [("Date", "D")] false).redirect = none
    ∧ effectiveRedirectMode (s3FetchInit "GET" [("Date", "D")] false) = "follow" :=
  ⟨rfl, rfl⟩

/-! ## Claim C8: copy ETag extraction -/

theorem jsonUnescape_clean :
    ∀ l : List Char, (∀ c ∈ l, ¬(c = '"' ∨ c = '\\')) → jsonUnescape l = some l := by
  intro l
  induction l with
  | nil => intro _; rfl
  | cons c rest ih =>
    intro h
    have hc := h c (by simp)
    have hrest : ∀ d ∈ rest, ¬(d = '"' ∨ d = '\\') :=
      fun d hd => h d (List.mem_cons_of_mem c hd)
    have h1 : ¬c = '\\' := fun hh => hc (Or.inr hh)
    have h2 : ¬c = '"' := fun hh => hc (Or.inl hh)
    simp [jsonUnescape, h1, h2, ih hrest]

theorem jsonParseString_quoted (x : String)
    (hx : ∀ c ∈ x.data, ¬(c = '"' ∨ c = '\\')) :
    jsonParseString ("\"" ++ x ++ "\"") = .ok x := by
  have hdata : ("\"" ++ x ++ "\"").data = '"' :: (x.data ++ ['"']) := by
    simp [String.data_append]
  rw [jsonParseString, hdata]
  simp [List.getLast?_concat, List.dropLast_concat, jsonUnescape_clean x.data hx]

/-- Claim C8 (amended): `copy` fails only when the response body is
missing; when the XML carries an ETag node the quoted text is returned
unquoted, and when the XML **lacks** an ETag node the call does not fail —
it returns the empty string (`JSON.parse(etag ?? '""')`). -/
theorem c8_copy_etag_corrected :
    copyResult none = .error "missing response"
    ∧ (∀ doc, pluckCopyEtag doc = none → copyResult (some doc) = .ok "")
    ∧ (∀ doc x, pluckCopyEtag doc = some ("\"" ++ x ++ "\"") →
        (∀ c ∈ x.data, ¬(c = '"' ∨ c = '\\')) → copyResult (some doc) = .ok x) := by
  refine ⟨rfl, fun doc h => ?_, fun doc x h hx => ?_⟩
  · simp [copyResult, h]
    rfl
  · simp [copyResult, h, jsonParseString_quoted x hx]

/-- Witness for C8 (amended): an ETag node with quoted text is unquoted. -/
theorem c8_witness :
    copyResult (some [XNode.elem "CopyObjectResult" [XNode.elem "ETag" [XNode.txt "\"abc\""]]])
      = .ok "abc" :=
  c8_copy_etag_corrected.2.2 [XNode.elem "CopyObjectResult" [XNode.elem "ETag" [XNode.txt "\"abc\""]]]
    "abc" (by decide) (by decide)

/-- Counterexample for C8 as stated: a response whose XML lacks an ETag
node does not make `copy` fail — it returns the empty string. -/
theorem c8_counterexample :
    copyResult (some [XNode.elem "CopyObjectResult" []]) = .ok "" := by
  rfl

/-! ## Claim C1: the canonical string -/

theorem charListLe_total : ∀ a b : List Char, charListLe a b = true ∨ charListLe b a = true := by
  intro a
  induction a with
  | nil => intro b; left; rfl
  | cons x xs ih =>
    intro b
    cases b with
    | nil => right; rfl
    | cons y ys =>
      by_cases hxy : x = y
      · subst hxy
        rcases ih ys with h | h
        · left; simp [charListLe, h]
        · right; simp [charListLe, h]
      · rcases lt_trichotomy x y with h | h | h
        · left; simp [charListLe, hxy, h]
        · exact absurd h hxy
        · right
          have hyx : ¬y = x := fun hh => hxy hh.symm
          simp [charListLe, hyx, h]

theorem charListLe_trans :
    ∀ a b c : List Char, charListLe a b = true → charListLe b c = true → charListLe a c = true := by
  intro a
  induction a with
  | nil => intro b c _ _; rfl
  | cons x xs ih =>
    intro b c hab hbc
    cases b with
    | nil => simp [charListLe] at hab
    | cons y ys =>
      cases c with
      | nil => simp [charListLe] at hbc
      | cons z zs =>
        by_cases hxy : x = y <;> by_cases hyz : y = z
        · subst hxy; subst hyz
          simp only [charListLe, if_pos rfl] at hab hbc ⊢
          exact ih ys zs hab hbc
        · subst hxy
          simp only [charListLe, if_pos rfl] at hab
          simp only [charListLe, hyz, if_neg hyz] at hbc
          have hlt : x < z := of_decide_eq_true hbc
          have hxz : ¬x = z := ne_of_lt hlt
          simp [charListLe, hxz, hlt]
        · subst hyz
          simp only [charListLe, hxy, if_neg hxy] at hab
          have hlt : x < y := of_decide_eq_true hab
          have hxz : ¬x = y := ne_of_lt hlt
          simp [charListLe, hxz, hlt]
        · simp only [charListLe, if_neg hxy] at hab
          simp only [charListLe, if_neg hyz] at hbc
          have h1 : x < y := of_decide_eq_true hab
          have h2 : y < z := of_decide_eq_true hbc
          have hlt : x < z := lt_trans h1 h2
          have hxz : ¬x = z := ne_of_lt hlt
          simp [charListLe, hxz, hlt]

theorem jsStrLe_total : ∀ a b : String, jsStrLe a b = true ∨ jsStrLe b a = true :=
  fun a b => charListLe_total a.data b.data

theorem jsStrLe_trans :
    ∀ a b c : String, jsStrLe a b = true → jsStrLe b c = true → jsStrLe a c = true :=
  fun a b c => charListLe_trans a.data b.data c.data

theorem insertSorted_perm (le : α → α → Bool) (a : α) (l : List α) :
    (insertSorted le a l).Perm (a :: l) := by
  induction l with
  | nil => exact List.Perm.refl _
  | cons b bs ih =>
    by_cases h : le a b
    · simp [insertSorted, h]
    · simp only [insertSorted, h, if_neg]
      simp only [Bool.false_eq_true, if_false]
      exact (ih.cons b).trans (List.Perm.swap a b bs)

theorem insertionSort_perm (le : α → α → Bool) (l : List α) :
    (insertionSort le l).Perm l := by
  induction l with
  | nil => exact List.Perm.refl _
  | cons a as ih => exact (insertSorted_perm le a (insertionSort le as)).trans (ih.cons a)

theorem insertSorted_pairwise (le : α → α → Bool)
    (htot : ∀ x y, le x y = true ∨ le y x = true)
    (htrans : ∀ x y z, le x y = true → le y z = true → le x z = true)
    (a : α) (l : List α) (hl : List.Pairwise (fun x y => le x y = true) l) :
    List.Pairwise (fun x y => le x y = true) (insertSorted le a l) := by
  induction l with
  | nil => simp [insertSorted]
  | cons b bs ih =>
    rcases List.pairwise_cons.mp hl with ⟨hb, hbs⟩
    by_cases h : le a b
    · simp only [insertSorted, h, if_pos]
      refine List.pairwise_cons.mpr ⟨?_, hl⟩
      intro x hx
      rcases List.mem_cons.mp hx with hx | hx
      · subst hx; exact h
      · exact htrans a b x h (hb x hx)
    · simp only [insertSorted, h, if_neg]
      simp only [Bool.false_eq_true, if_false]
      refine List.pairwise_cons.mpr ⟨?_, ih hbs⟩
      intro x hx
      have hx' : x ∈ a :: bs := (insertSorted_perm le a bs).mem_iff.mp hx
      rcases List.mem_cons.mp hx' with hx' | hx'
      · rcases htot a b with h' | h'
        · exact absurd h' h
        · rw [hx']; exact h'
      · exact hb x hx'

theorem insertionSort_pairwise (le : α → α → Bool)
    (htot : ∀ x y, le x y = true ∨ le y x = true)
    (htrans : ∀ x y z, le x y = true → le y z = true → le x z = true)
    (l : List α) :
    List.Pairwise (fun x y => le x y = true) (insertionSort le l) := by
  induction l with
  | nil => simp [insertionSort]
  | cons a as ih => exact insertSorted_pairwise le htot htrans a _ ih

/-- Claim C1 (amended): the canonical string handed to the HMAC signer is
exactly method, content-md5, content-type, date, the vendor header lines
and the resource, joined by single newlines; the vendor lines are the
`lowercased-name:value` renderings of every header whose lowercased name
starts with `x-amz` except `x-amz-date`, and they appear sorted
lexicographically **as whole `name:value` lines** (JS default sort), which
can differ from sorting by header name alone. -/
theorem c1_canonical_corrected (method : String) (hdrs : List (String × String))
    (resource : String) :
    (canonicalizeHeaders hdrs).Perm (hdrs.filterMap vendorLine?)
    ∧ List.Pairwise (fun a b => jsStrLe a b = true) (canonicalizeHeaders hdrs)
    ∧ requestCanonicalMessage method hdrs resource
      = String.intercalate "\n"
          ([method, (recordGet hdrs "Content-MD5").getD "",
            (recordGet hdrs "Content-Type").getD "",
            (recordGet hdrs "Date").getD ""]
            ++ canonicalizeHeaders hdrs ++ [resource]) :=
  ⟨insertionSort_perm jsStrLe (hdrs.filterMap vendorLine?),
   insertionSort_pairwise jsStrLe jsStrLe_total jsStrLe_trans (hdrs.filterMap vendorLine?),
   rfl⟩

/-- The vendor lines the claim describes: the same filtered headers sorted
by lowercased header **name**. -/
def vendorLinesByName (headers : List (String × String)) : List String :=
  (insertionSort (fun a b => jsStrLe a.1 b.1)
    (headers.filterMap fun kv =>
      let k := jsLower kv.1
      if jsStartsWith k "x-amz" ∧ k ≠ "x-amz-date" then some (k, kv.2) else none)).map
    (fun kv => kv.1 ++ ":" ++ kv.2)

/-- Counterexample for C1 as stated: when one vendor header name is a
proper prefix of another, sorting whole `name:value` lines (what the code
does) differs from sorting by header name (what the claim states), because
`':'` compares above `'-'`. -/
theorem c1_counterexample :
    canonicalizeHeaders [("x-amz-a", "v"), ("x-amz-a-b", "w")] = ["x-amz-a-b:w", "x-amz-a:v"]
    ∧ vendorLinesByName [("x-amz-a", "v"), ("x-amz-a-b", "w")] = ["x-amz-a:v", "x-amz-a-b:w"]
    ∧ canonicalizeHeaders [("x-amz-a", "v"), ("x-amz-a-b", "w")]
      ≠ vendorLinesByName [("x-amz-a", "v"), ("x-amz-a-b", "w")] :=
  ⟨by decide, by decide, by decide⟩

/-! ## Claim C10: slash collapsing in `#url` -/

/-- Reference form of `split(/\/+/).join('/')`: replace every maximal run
of `'/'` by a single `'/'`. -/
def collapseSlashes : List Char → List Char
  | [] => []
  | c :: rest =>
    if c = '/' then '/' :: collapseSlashes (rest.dropWhile fun d => d = '/')
    else c :: collapseSlashes rest
termination_by l => l.length
decreasing_by
  · exact Nat.lt_succ_of_le (List.dropWhile_sublist _).length_le
  · exact Nat.lt_succ_of_le (Nat.le_refl _)

theorem collapseSlashes_nil : collapseSlashes [] = [] := by
  rw [collapseSlashes.eq_def]

theorem collapseSlashes_cons (c : Char) (l : List Char) :
    collapseSlashes (c :: l)
      = if c = '/' then '/' :: collapseSlashes (l.dropWhile fun d => d = '/')
        else c :: collapseSlashes l := by
  rw [collapseSlashes.eq_def]

theorem splitGo_nil (acc : List Char) (b : Bool) : splitGo [] acc b = [acc.reverse] := rfl

theorem splitGo_cons_slash_true (rest acc : List Char) :
    splitGo ('/' :: rest) acc true = splitGo rest acc true := by
  simp [splitGo]

theorem splitGo_cons_slash_false (rest acc : List Char) :
    splitGo ('/' :: rest) acc false = acc.reverse :: splitGo rest [] true := by
  simp [splitGo]

theorem splitGo_cons_ne (c : Char) (rest acc : List Char) (b : Bool) (hc : ¬c = '/') :
    splitGo (c :: rest) acc b = splitGo rest (c :: acc) false := by
  simp [splitGo, hc]

theorem joinSlash_cons_cons (p q : List Char) (ps : List (List Char)) :
    joinSlash (p :: q :: ps) = p ++ '/' :: joinSlash (q :: ps) := rfl

theorem splitGo_ne_nil : ∀ (l acc : List Char) (b : Bool), splitGo l acc b ≠ [] := by
  intro l
  induction l with
  | nil => intro acc b; simp [splitGo]
  | cons c rest ih =>
    intro acc b
    by_cases hc : c = '/'
    · subst hc
      cases b
      · rw [splitGo_cons_slash_false]; simp
      · rw [splitGo_cons_slash_true]; exact ih acc true
    · rw [splitGo_cons_ne c rest acc b hc]; exact ih (c :: acc) false

theorem dropWhile_slash_cons (r : List Char) :
    List.dropWhile (fun d => d = '/') ('/' :: r) = List.dropWhile (fun d => d = '/') r := by
  simp [List.dropWhile]

theorem joinSlash_splitGo :
    ∀ (l acc : List Char) (b : Bool),
      joinSlash (splitGo l acc b)
        = acc.reverse
            ++ collapseSlashes (if b then l.dropWhile (fun d => d = '/') else l) := by
  intro l
  induction l with
  | nil =>
    intro acc b
    cases b <;> simp [splitGo_nil, joinSlash, collapseSlashes_nil]
  | cons c rest ih =>
    intro acc b
    by_cases hc : c = '/'
    · subst hc
      cases b with
      | true =>
        rw [splitGo_cons_slash_true, ih acc true]
        simp [dropWhile_slash_cons]
      | false =>
        rw [splitGo_cons_slash_false]
        obtain ⟨q, qs, hq⟩ := List.exists_cons_of_ne_nil (splitGo_ne_nil rest [] true)
        rw [hq, joinSlash_cons_cons, ← hq, ih [] true]
        simp only [List.reverse_nil, List.nil_append, if_pos rfl,
          if_neg Bool.false_ne_true]
        rw [collapseSlashes_cons, if_pos rfl]
        simp
    · cases b with
      | true =>
        rw [splitGo_cons_ne c rest acc true hc, ih (c :: acc) false]
        have hdw : List.dropWhile (fun d => d = '/') (c :: rest) = c :: rest :=
          List.dropWhile_cons_of_neg (by simp [hc])
        simp [hdw, collapseSlashes_cons, hc]
      | false =>
        rw [splitGo_cons_ne c rest acc false hc, ih (c :: acc) false]
        simp [collapseSlashes_cons, hc]

/-- Whether a character list begins with a slash. -/
def headSlash : List Char → Bool
  | c :: _ => c = '/'
  | [] => false

theorem collapseSlashes_cons_slash (l : List Char) :
    collapseSlashes ('/' :: l)
      = if headSlash (collapseSlashes l) then collapseSlashes l
        else '/' :: collapseSlashes l := by
  cases l with
  | nil => simp [collapseSlashes_cons, collapseSlashes_nil, headSlash, List.dropWhile]
  | cons c r =>
    by_cases hc : c = '/'
    · subst hc
      rw [collapseSlashes_cons, if_pos rfl, dropWhile_slash_cons]
      conv_rhs => rw [collapseSlashes_cons, if_pos rfl]
      simp [headSlash]
    · rw [collapseSlashes_cons, if_pos rfl]
      have hdw : List.dropWhile (fun d => d = '/') (c :: r) = c :: r :=
        List.dropWhile_cons_of_neg (by simp [hc])
      rw [hdw]
      conv_rhs => rw [collapseSlashes_cons, if_neg hc]
      have hhs : headSlash (c :: collapseSlashes r) = false := by
        simp [headSlash, hc]
      rw [hhs, if_neg (by simp)]
      rw [collapseSlashes_cons, if_neg hc]

theorem collapseSlashes_cons_ne (c : Char) (hc : ¬c = '/') (l : List Char) :
    collapseSlashes (c :: l) = c :: collapseSlashes l := by
  rw [collapseSlashes_cons, if_neg hc]

theorem collapseSlashes_append_congr :
    ∀ (p l1 l2 : List Char), collapseSlashes l1 = collapseSlashes l2 →
      collapseSlashes (p ++ l1) = collapseSlashes (p ++ l2) := by
  intro p
  induction p with
  | nil => intro l1 l2 h; simpa using h
  | cons c p' ih =>
    intro l1 l2 h
    by_cases hc : c = '/'
    · subst hc
      rw [List.cons_append, List.cons_append,
        collapseSlashes_cons_slash, collapseSlashes_cons_slash, ih l1 l2 h]
    · rw [List.cons_append, List.cons_append,
        collapseSlashes_cons_ne c hc, collapseSlashes_cons_ne c hc, ih l1 l2 h]

theorem jsCollapsePath_eq (s : String) :
    jsCollapsePath s = String.mk (collapseSlashes s.data) := by
  rw [jsCollapsePath, joinSlash_splitGo s.data [] false]
  simp

/-- Claim C10: in either addressing mode, the URL path built by `#url`
collapses every run of repeated `'/'` in the bucket-plus-key path, so two
keys that differ only in duplicated slashes (same split pieces) yield
identical request URLs. -/
theorem c10_url_slash_collapse (hostBased : Bool) (bucket k1 k2 : String)
    (h : splitSlashPieces k1 = splitSlashPieces k2) :
    urlPathname hostBased bucket k1 = urlPathname hostBased bucket k2 := by
  have hgo : splitGo k1.data [] false = splitGo k2.data [] false := by
    have hinj : Function.Injective String.mk := fun a b hab => congrArg String.data hab
    exact List.map_injective_iff.mpr hinj h
  have hcoll : collapseSlashes k1.data = collapseSlashes k2.data := by
    have h1 := joinSlash_splitGo k1.data [] false
    have h2 := joinSlash_splitGo k2.data [] false
    simp only [List.reverse_nil, List.nil_append, if_neg Bool.false_ne_true] at h1 h2
    rw [← h1, ← h2, hgo]
  cases hostBased with
  | false =>
    show jsCollapsePath ("/" ++ bucket ++ "/" ++ k1) = jsCollapsePath ("/" ++ bucket ++ "/" ++ k2)
    have hd : ∀ k : String, ("/" ++ bucket ++ "/" ++ k).data = ("/" ++ bucket ++ "/").data ++ k.data :=
      fun k => String.data_append _ _
    rw [jsCollapsePath_eq, jsCollapsePath_eq, hd k1, hd k2,
      collapseSlashes_append_congr _ _ _ hcoll]
  | true =>
    show jsCollapsePath ("/" ++ k1) = jsCollapsePath ("/" ++ k2)
    have hd : ∀ k : String, ("/" ++ k).data = ("/").data ++ k.data :=
      fun k => String.data_append _ _
    rw [jsCollapsePath_eq, jsCollapsePath_eq, hd k1, hd k2,
      collapseSlashes_append_congr _ _ _ hcoll]

/-- Witness for C10: `a//b` and `a/b` split into the same pieces and are
mapped to the same path in path-based addressing. -/
theorem c10_witness :
    splitSlashPieces "a//b" = splitSlashPieces "a/b"
    ∧ urlPathname false "bkt" "a//b" = urlPathname false "bkt" "a/b" :=
  ⟨by decide, c10_url_slash_collapse false "bkt" "a//b" "a/b" (by decide)⟩


/-! ## Trace observations -/

/-- The error result a non-abort call carries, if any. -/
def callErr : Call → Option String
  | .start (.error e) => some e
  | .part _ _ _ (.error e) => some e
  | .commitCall _ _ _ (.error e) => some e
  | .putCall _ _ (.error e) => some e
  | _ => none

/-- Whether a call is an abort. -/
def isAbort : Call → Bool
  | .abortCall _ _ => true
  | _ => false

/-- The upload id of a successful start call. -/
def startOk? : Call → Option String
  | .start (.ok id) => some id
  | _ => none

/-- The content of a successful part upload. -/
def okPartContent? : Call → Option (List Nat)
  | .part _ _ content (.ok _) => some content
  | _ => none

/-- The errors of the non-abort calls of a trace, in order. -/
def traceErrs (tr : List Call) : List String := tr.filterMap callErr

/-- The abort calls of a trace. -/
def traceAborts (tr : List Call) : List Call := tr.filter isAbort

/-- The upload ids of the successful start calls of a trace. -/
def traceStarts (tr : List Call) : List String := tr.filterMap startOk?

/-- The contents of the successful part uploads of a trace, in order. -/
def okParts (tr : List Call) : List (List Nat) := tr.filterMap okPartContent?

/-! ## Claim C5: small streams fall back to a single direct put -/

theorem runChunks_small (net : Net) :
    ∀ (chunks : List (List Nat)) (s : EngineState),
      s.uploadId = none →
      s.size + chunks.flatten.length ≤ MIN_CHUNK_SIZE →
      runChunks net s chunks
        = ({ s with store := s.store ++ chunks, size := s.size + chunks.flatten.length }, none) := by
  intro chunks
  induction chunks with
  | nil =>
    intro s h1 h2
    simp [runChunks]
  | cons c rest ih =>
    intro s h1 h2
    have hlen : ¬(s.size + c.length > MIN_CHUNK_SIZE) := by
      simp only [List.flatten_cons, List.length_append] at h2
      omega
    have hcc : consumeChunk net s c
        = ({ s with store := s.store ++ [c], size := s.size + c.length }, none) := by
      simp [consumeChunk, hlen]
    rw [runChunks, hcc]
    dsimp only
    rw [ih { s with store := s.store ++ [c], size := s.size + c.length } h1
      (by simp only [List.flatten_cons, List.length_append] at h2 ⊢; omega)]
    simp only [List.append_assoc, List.singleton_append, List.flatten_cons,
      List.length_append]
    rw [Nat.add_assoc]

/-- Claim C5: a streamed put whose total length is at most
`MIN_CHUNK_SIZE` never starts a multipart session and issues exactly the
direct put of the concatenation of its chunks — same request, same
result. -/
theorem c5_small_stream_direct_put (net : Net) (chunks : List (List Nat)) (hdrs : AWShdrs)
    (h : chunks.flatten.length ≤ MIN_CHUNK_SIZE) :
    putStreamRun net chunks hdrs = putBufferCall net chunks.flatten hdrs [] := by
  rw [putStreamRun, runChunks_small net chunks ⟨[], 0, none, [], []⟩ rfl (by simpa using h)]
  simp [jsTruthyId]

/-- An all-success oracle used by concrete witnesses. -/
def netOk : Net :=
  ⟨.ok "U", fun n _ _ => .ok ("e" ++ toString n), fun _ _ => .ok "F",
   fun _ => .ok (), fun _ _ => .ok "P"⟩

/-- Witness for C5: a three-byte stream in two chunks is one direct put of
the concatenated bytes. -/
theorem c5_witness :
    [[1], [2, 3]].flatten.length ≤ MIN_CHUNK_SIZE
    ∧ putStreamRun netOk [[1], [2, 3]] ⟨none, none⟩
      = putBufferCall netOk [[1], [2, 3]].flatten ⟨none, none⟩ [] :=
  ⟨by decide, c5_small_stream_direct_put netOk [[1], [2, 3]] ⟨none, none⟩ (by decide)⟩

/-! ## Claim C3: abort-on-failure semantics -/

theorem traceErrs_append (t1 t2 : List Call) :
    traceErrs (t1 ++ t2) = traceErrs t1 ++ traceErrs t2 :=
  List.filterMap_append t1 t2 callErr

theorem traceAborts_append (t1 t2 : List Call) :
    traceAborts (t1 ++ t2) = traceAborts t1 ++ traceAborts t2 :=
  List.filter_append t1 t2

theorem traceStarts_append (t1 t2 : List Call) :
    traceStarts (t1 ++ t2) = traceStarts t1 ++ traceStarts t2 :=
  List.filterMap_append t1 t2 startOk?

/-- Loop invariant for the abort analysis: no failed call, no abort call,
and the successful starts of the trace are exactly the held upload id. -/
def C3Inv (s : EngineState) : Prop :=
  traceErrs s.trace = [] ∧ traceAborts s.trace = []
  ∧ traceStarts s.trace = (match s.uploadId with
      | none => []
      | some i => [i])

/-- State after the first failure inside the `try` block: exactly one
failed call, still no abort, starts still matching the upload id. -/
def C3Err (s : EngineState) (e : String) : Prop :=
  traceErrs s.trace = [e] ∧ traceAborts s.trace = []
  ∧ traceStarts s.trace = (match s.uploadId with
      | none => []
      | some i => [i])

theorem flushPart_c3 (net : Net) (s : EngineState) (hInv : C3Inv s) :
    (∀ s', flushPart net s = (s', none) → C3Inv s' ∧ s'.uploadId = s.uploadId)
    ∧ (∀ s' e, flushPart net s = (s', some e) → C3Err s' e ∧ s'.uploadId = s.uploadId) := by
  obtain ⟨h1, h2, h3⟩ := hInv
  cases hup : net.uploadPart (s.parts.length + 1) (s.uploadId.getD "") s.store.flatten with
  | error e0 =>
    constructor
    · intro s' h
      simp [flushPart, hup] at h
    · intro s' e h
      simp only [flushPart, hup] at h
      obtain ⟨hs', he⟩ := Prod.mk.injEq _ _ _ _ ▸ h
      injection he with he2
      subst he2
      refine ⟨⟨?_, ?_, ?_⟩, by rw [← hs']⟩ <;> rw [← hs'] <;> dsimp only
      · rw [traceErrs_append, h1]
        rfl
      · rw [traceAborts_append, h2]
        rfl
      · have hz : traceStarts [Call.part (s.parts.length + 1) (s.uploadId.getD "")
            s.store.flatten (Except.error e0)] = [] := rfl
        rw [traceStarts_append, hz, List.append_nil, h3]
  | ok etag =>
    constructor
    · intro s' h
      simp only [flushPart, hup] at h
      obtain ⟨hs', _⟩ := Prod.mk.injEq _ _ _ _ ▸ h
      refine ⟨⟨?_, ?_, ?_⟩, by rw [← hs']⟩ <;> rw [← hs'] <;> dsimp only
      · rw [traceErrs_append, h1]
        rfl
      · rw [traceAborts_append, h2]
        rfl
      · have hz : traceStarts [Call.part (s.parts.length + 1) (s.uploadId.getD "")
            s.store.flatten (Except.ok etag)] = [] := rfl
        rw [traceStarts_append, hz, List.append_nil, h3]
    · intro s' e h
      simp [flushPart, hup] at h

theorem consumeChunk_c3 (net : Net) (s : EngineState) (c : List Nat) (hInv : C3Inv s) :
    (∀ s', consumeChunk net s c = (s', none) → C3Inv s')
    ∧ (∀ s' e, consumeChunk net s c = (s', some e) → C3Err s' e) := by
  obtain ⟨h1, h2, h3⟩ := hInv
  by_cases hsz : s.size + c.length > MIN_CHUNK_SIZE
  · cases hu : s.uploadId with
    | some i =>
      have hInv1 : C3Inv { s with store := s.store ++ [c], size := s.size + c.length } :=
        ⟨h1, h2, h3⟩
      have hred : consumeChunk net s c
          = flushPart net { s with store := s.store ++ [c], size := s.size + c.length } := by
        simp [consumeChunk, hsz, hu]
      constructor
      · intro s' h
        rw [hred] at h
        exact ((flushPart_c3 net _ hInv1).1 s' h).1
      · intro s' e h
        rw [hred] at h
        exact ((flushPart_c3 net _ hInv1).2 s' e h).1
    | none =>
      cases hst : net.start with
      | error e0 =>
        have hred : consumeChunk net s c
            = ({ s with store := s.store ++ [c],
                        size := s.size + c.length,
                        trace := s.trace ++ [.start (.error e0)] }, some e0) := by
          simp [consumeChunk, hsz, hu, hst]
        constructor
        · intro s' h
          rw [hred] at h
          simp at h
        · intro s' e h
          rw [hred] at h
          obtain ⟨hs', he⟩ := Prod.mk.injEq _ _ _ _ ▸ h
          injection he with he2
          subst he2
          have h3' : traceStarts s.trace = [] := by rw [h3, hu]
          refine ⟨?_, ?_, ?_⟩ <;> rw [← hs'] <;> dsimp only
          · rw [traceErrs_append, h1]
            rfl
          · rw [traceAborts_append, h2]
            rfl
          · rw [hu]
            show traceStarts (s.trace ++ [Call.start (Except.error e0)]) = []
            rw [traceStarts_append, h3']
            rfl
      | ok id =>
        have h3' : traceStarts s.trace = [] := by rw [h3, hu]
        have hInv2 : C3Inv { s with store := s.store ++ [c],
                                    size := s.size + c.length,
                                    uploadId := some id,
                                    trace := s.trace ++ [.start (.ok id)] } := by
          refine ⟨?_, ?_, ?_⟩ <;> dsimp only
          · rw [traceErrs_append, h1]
            rfl
          · rw [traceAborts_append, h2]
            rfl
          · show traceStarts (s.trace ++ [Call.start (Except.ok id)]) = [id]
            rw [traceStarts_append, h3']
            rfl
        have hred : consumeChunk net s c
            = flushPart net { s with store := s.store ++ [c],
                                     size := s.size + c.length,
                                     uploadId := some id,
                                     trace := s.trace ++ [.start (.ok id)] } := by
          simp [consumeChunk, hsz, hu, hst]
        constructor
        · intro s' h
          rw [hred] at h
          exact ((flushPart_c3 net _ hInv2).1 s' h).1
        · intro s' e h
          rw [hred] at h
          exact ((flushPart_c3 net _ hInv2).2 s' e h).1
  · have hred : consumeChunk net s c
        = ({ s with store := s.store ++ [c], size := s.size + c.length }, none) := by
      simp [consumeChunk, hsz]
    constructor
    · intro s' h
      rw [hred] at h
      obtain ⟨hs', _⟩ := Prod.mk.injEq _ _ _ _ ▸ h
      exact ⟨by rw [← hs']; exact h1, by rw [← hs']; exact h2, by rw [← hs']; exact h3⟩
    · intro s' e h
      rw [hred] at h
      simp at h

theorem runChunks_c3 (net : Net) :
    ∀ (chunks : List (List Nat)) (s : EngineState), C3Inv s →
      (∀ s', runChunks net s chunks = (s', none) → C3Inv s')
      ∧ (∀ s' e, runChunks net s chunks = (s', some e) → C3Err s' e) := by
  intro chunks
  induction chunks with
  | nil =>
    intro s hInv
    constructor
    · intro s' h
      rw [runChunks] at h
      obtain ⟨hs', _⟩ := Prod.mk.injEq _ _ _ _ ▸ h
      rw [← hs']
      exact hInv
    · intro s' e h
      rw [runChunks] at h
      simp at h
  | cons c rest ih =>
    intro s hInv
    constructor
    · intro s' h
      rw [runChunks] at h
      rcases hcc : consumeChunk net s c with ⟨s1, o1⟩
      rw [hcc] at h
      cases o1 with
      | none =>
        exact (ih s1 ((consumeChunk_c3 net s c hInv).1 s1 hcc)).1 s' h
      | some e1 => simp at h
    · intro s' e h
      rw [runChunks] at h
      rcases hcc : consumeChunk net s c with ⟨s1, o1⟩
      rw [hcc] at h
      cases o1 with
      | none =>
        exact (ih s1 ((consumeChunk_c3 net s c hInv).1 s1 hcc)).2 s' e h
      | some e1 =>
        obtain ⟨hs', he⟩ := Prod.mk.injEq _ _ _ _ ▸ h
        injection he with he2
        subst he2
        rw [← hs']
        exact (consumeChunk_c3 net s c hInv).2 s1 e1 hcc

theorem handleCatch_nontruthy (net : Net) (u : Option String) (tr : List Call) (e : String)
    (h : jsTruthyId u = false) : handleCatch net u tr e = (.error (.single e), tr) := by
  simp [handleCatch, h]

theorem handleCatch_c3 (net : Net) (u : String) (hu : u ≠ "") (tr : List Call) (e : String)
    (herr : traceErrs tr = [e]) (hab : traceAborts tr = []) (hst : traceStarts tr = [u]) :
    traceErrs (handleCatch net (some u) tr e).2 = [e]
    ∧ (traceAborts (handleCatch net (some u) tr e).2).length = 1
    ∧ traceStarts (handleCatch net (some u) tr e).2 = [u]
    ∧ ((Call.abortCall u (.ok ()) ∈ (handleCatch net (some u) tr e).2
        ∧ (handleCatch net (some u) tr e).1 = .error (.single e))
      ∨ ∃ sub, Call.abortCall u (.error sub) ∈ (handleCatch net (some u) tr e).2
        ∧ (handleCatch net (some u) tr e).1 = .error (.aggregate e sub)) := by
  have htruthy : jsTruthyId (some u) = true := by simp [jsTruthyId, hu]
  cases hao : net.abort u with
  | ok r =>
    have hred : handleCatch net (some u) tr e
        = (.error (.single e), tr ++ [.abortCall u (.ok ())]) := by
      simp [handleCatch, htruthy, hao]
    rw [hred]
    refine ⟨?_, ?_, ?_, Or.inl ⟨by simp, rfl⟩⟩ <;> dsimp only
    · rw [traceErrs_append, herr]
      rfl
    · rw [traceAborts_append, hab]
      rfl
    · have hz : traceStarts [Call.abortCall u (Except.ok ())] = [] := rfl
      rw [traceStarts_append, hz, List.append_nil, hst]
  | error sub =>
    have hred : handleCatch net (some u) tr e
        = (.error (.aggregate e sub), tr ++ [.abortCall u (.error sub)]) := by
      simp [handleCatch, htruthy, hao]
    rw [hred]
    refine ⟨?_, ?_, ?_, Or.inr ⟨sub, by simp, rfl⟩⟩ <;> dsimp only
    · rw [traceErrs_append, herr]
      rfl
    · rw [traceAborts_append, hab]
      rfl
    · have hz : traceStarts [Call.abortCall u (Except.error sub)] = [] := rfl
      rw [traceStarts_append, hz, List.append_nil, hst]

theorem putBufferCall_trace (net : Net) (content : List Nat) (hdrs : AWShdrs) (tr : List Call) :
    traceStarts (putBufferCall net content hdrs tr).2 = traceStarts tr := by
  cases hnp : net.put content
      { hdrs with contentType := some (hdrs.contentType.getD "application/octet-stream") } with
  | ok etag =>
    have hred : (putBufferCall net content hdrs tr).2
        = tr ++ [.putCall content
            { hdrs with contentType := some (hdrs.contentType.getD "application/octet-stream") }
            (.ok etag)] := by
      simp [putBufferCall, hnp]
    rw [hred, traceStarts_append]
    have hz : traceStarts [Call.putCall content
        { hdrs with contentType := some (hdrs.contentType.getD "application/octet-stream") }
        (Except.ok etag)] = [] := rfl
    rw [hz, List.append_nil]
  | error e =>
    have hred : (putBufferCall net content hdrs tr).2
        = tr ++ [.putCall content
            { hdrs with contentType := some (hdrs.contentType.getD "application/octet-stream") }
            (.error e)] := by
      simp [putBufferCall, hnp]
    rw [hred, traceStarts_append]
    have hz : traceStarts [Call.putCall content
        { hdrs with contentType := some (hdrs.contentType.getD "application/octet-stream") }
        (Except.error e)] = [] := rfl
    rw [hz, List.append_nil]

theorem start_mem_iff (tr : List Call) (id : String) :
    Call.start (.ok id) ∈ tr ↔ id ∈ traceStarts tr := by
  simp only [traceStarts, List.mem_filterMap]
  constructor
  · intro h
    exact ⟨Call.start (.ok id), h, rfl⟩
  · rintro ⟨c, hc, hsome⟩
    cases c with
    | start r =>
      cases r with
      | ok i =>
        simp only [startOk?, Option.some.injEq] at hsome
        rw [← hsome]
        exact hc
      | error e => simp [startOk?] at hsome
    | part _ _ _ _ => simp [startOk?] at hsome
    | commitCall _ _ _ _ => simp [startOk?] at hsome
    | abortCall _ _ => simp [startOk?] at hsome
    | putCall _ _ _ => simp [startOk?] at hsome

theorem finishMultipart_c3 (net : Net) (s : EngineState) (u : String)
    (hu : s.uploadId = some u) (huid : u ≠ "") (hInv : C3Inv s) :
    (traceErrs (finishMultipart net s).2 = []
      ∧ ∃ etag, (finishMultipart net s).1 = .ok etag)
    ∨ (∃ e0, traceErrs (finishMultipart net s).2 = [e0]
        ∧ (traceAborts (finishMultipart net s).2).length = 1
        ∧ traceStarts (finishMultipart net s).2 = [u]
        ∧ ((Call.abortCall u (.ok ()) ∈ (finishMultipart net s).2
            ∧ (finishMultipart net s).1 = .error (.single e0))
          ∨ ∃ sub, Call.abortCall u (.error sub) ∈ (finishMultipart net s).2
            ∧ (finishMultipart net s).1 = .error (.aggregate e0 sub))) := by
  rcases hmid : (if s.size ≠ 0 then flushPart net s else (s, none)) with ⟨s1, o1⟩
  have hfin0 : finishMultipart net s
      = (match (s1, o1) with
        | (s', some e) => handleCatch net s'.uploadId s'.trace e
        | (s', none) =>
          match net.commit (s.uploadId.getD "") s'.parts with
          | .error e =>
            handleCatch net s'.uploadId
              (s'.trace ++ [.commitCall (s.uploadId.getD "") s'.parts
                (commitBody s'.parts) (.error e)]) e
          | .ok etag =>
            (.ok etag, s'.trace ++ [.commitCall (s.uploadId.getD "") s'.parts
              (commitBody s'.parts) (.ok etag)])) := by
    rw [finishMultipart, hmid]
  have hmid' :
      (∀ x, o1 = some x → C3Err s1 x ∧ s1.uploadId = s.uploadId)
      ∧ (o1 = none → C3Inv s1 ∧ s1.uploadId = s.uploadId) := by
    by_cases hsz : s.size ≠ 0
    · rw [if_pos hsz] at hmid
      exact ⟨fun x hx => (flushPart_c3 net s hInv).2 s1 x (hx ▸ hmid),
        fun hx => ⟨((flushPart_c3 net s hInv).1 s1 (hx ▸ hmid)).1,
          ((flushPart_c3 net s hInv).1 s1 (hx ▸ hmid)).2⟩⟩
    · rw [if_neg hsz] at hmid
      obtain ⟨hs1, ho1⟩ := Prod.mk.injEq _ _ _ _ ▸ hmid
      constructor
      · intro x hx
        rw [hx] at ho1
        simp at ho1
      · intro _
        rw [← hs1]
        exact ⟨hInv, rfl⟩
  cases o1 with
  | some e =>
    obtain ⟨hErr, hup1⟩ := hmid'.1 e rfl
    obtain ⟨he1, he2, he3⟩ := hErr
    rw [hup1, hu] at he3
    have he3' : traceStarts s1.trace = [u] := he3
    have hfin : finishMultipart net s = handleCatch net (some u) s1.trace e := by
      rw [hfin0]
      dsimp only
      rw [hup1, hu]
    rw [hfin]
    exact Or.inr ⟨e, (handleCatch_c3 net u huid s1.trace e he1 he2 he3').1,
      (handleCatch_c3 net u huid s1.trace e he1 he2 he3').2.1,
      (handleCatch_c3 net u huid s1.trace e he1 he2 he3').2.2.1,
      (handleCatch_c3 net u huid s1.trace e he1 he2 he3').2.2.2⟩
  | none =>
    obtain ⟨hInv1, hup1⟩ := hmid'.2 rfl
    obtain ⟨hi1, hi2, hi3⟩ := hInv1
    rw [hup1, hu] at hi3
    have hi3' : traceStarts s1.trace = [u] := hi3
    cases hcm : net.commit u s1.parts with
    | ok etag =>
      have hfin : finishMultipart net s
          = (.ok etag, s1.trace ++ [.commitCall u s1.parts (commitBody s1.parts) (.ok etag)]) := by
        rw [hfin0]
        dsimp only
        rw [hu]
        show (match net.commit u s1.parts with
          | Except.error e =>
            handleCatch net s1.uploadId
              (s1.trace ++ [Call.commitCall u s1.parts (commitBody s1.parts) (Except.error e)]) e
          | Except.ok etag =>
            ((.ok etag : Except PutErr String),
              s1.trace ++ [Call.commitCall u s1.parts (commitBody s1.parts) (Except.ok etag)])) = _
        rw [hcm]
      refine Or.inl ⟨?_, etag, by rw [hfin]⟩
      rw [hfin]
      dsimp only
      rw [traceErrs_append, hi1]
      rfl
    | error e =>
      have hfin : finishMultipart net s
          = handleCatch net (some u)
              (s1.trace ++ [.commitCall u s1.parts (commitBody s1.parts) (.error e)]) e := by
        rw [hfin0]
        dsimp only
        rw [hu]
        show (match net.commit u s1.parts with
          | Except.error e =>
            handleCatch net s1.uploadId
              (s1.trace ++ [Call.commitCall u s1.parts (commitBody s1.parts) (Except.error e)]) e
          | Except.ok etag =>
            ((.ok etag : Except PutErr String),
              s1.trace ++ [Call.commitCall u s1.parts (commitBody s1.parts) (Except.ok etag)])) = _
        rw [hcm, hup1, hu]
      have herr : traceErrs (s1.trace ++ [.commitCall u s1.parts (commitBody s1.parts) (.error e)])
          = [e] := by
        rw [traceErrs_append, hi1]
        rfl
      have hab : traceAborts (s1.trace ++ [.commitCall u s1.parts (commitBody s1.parts) (.error e)])
          = [] := by
        rw [traceAborts_append, hi2]
        rfl
      have hst : traceStarts (s1.trace ++ [.commitCall u s1.parts (commitBody s1.parts) (.error e)])
          = [u] := by
        have hz : traceStarts [Call.commitCall u s1.parts (commitBody s1.parts) (Except.error e)]
            = [] := rfl
        rw [traceStarts_append, hz, List.append_nil, hi3']
      rw [hfin]
      exact Or.inr ⟨e, (handleCatch_c3 net u huid _ e herr hab hst).1,
        (handleCatch_c3 net u huid _ e herr hab hst).2.1,
        (handleCatch_c3 net u huid _ e herr hab hst).2.2.1,
        (handleCatch_c3 net u huid _ e herr hab hst).2.2.2⟩

/-- Claim C3: whenever a streamed put fails after a multipart session has
been started (a start call succeeded with a usable upload id and exactly
one non-abort call failed), the engine issues exactly one abort call, for
that upload id, and re-raises the original error; if the abort itself
fails, the caller gets the aggregate of both errors. -/
theorem c3_abort_exactly_once (net : Net) (chunks : List (List Nat)) (hdrs : AWShdrs)
    (id : String) (hid : id ≠ "")
    (hstart : Call.start (.ok id) ∈ (putStreamRun net chunks hdrs).2)
    (e : String)
    (hfail : traceErrs (putStreamRun net chunks hdrs).2 = [e]) :
    (traceAborts (putStreamRun net chunks hdrs).2).length = 1
    ∧ ((Call.abortCall id (.ok ()) ∈ (putStreamRun net chunks hdrs).2
        ∧ (putStreamRun net chunks hdrs).1 = .error (.single e))
      ∨ ∃ sub, Call.abortCall id (.error sub) ∈ (putStreamRun net chunks hdrs).2
        ∧ (putStreamRun net chunks hdrs).1 = .error (.aggregate e sub)) := by
  have hInv0 : C3Inv ⟨[], 0, none, [], []⟩ := ⟨rfl, rfl, rfl⟩
  rcases hrc : runChunks net ⟨[], 0, none, [], []⟩ chunks with ⟨s, o⟩
  cases o with
  | some e0 =>
    obtain ⟨he1, he2, he3⟩ := (runChunks_c3 net chunks _ hInv0).2 s e0 hrc
    have hrun : putStreamRun net chunks hdrs = handleCatch net s.uploadId s.trace e0 := by
      rw [putStreamRun, hrc]
    cases hu : s.uploadId with
    | none =>
      rw [hu] at he3
      have he3' : traceStarts s.trace = [] := he3
      rw [hrun, hu, handleCatch_nontruthy net none s.trace e0 rfl] at hstart
      have : id ∈ traceStarts s.trace := (start_mem_iff s.trace id).mp hstart
      rw [he3'] at this
      simp at this
    | some u =>
      rw [hu] at he3
      have he3' : traceStarts s.trace = [u] := he3
      by_cases huid : u = ""
      · subst huid
        rw [hrun, hu, handleCatch_nontruthy net (some "") s.trace e0 rfl] at hstart
        have : id ∈ traceStarts s.trace := (start_mem_iff s.trace id).mp hstart
        rw [he3'] at this
        simp at this
        exact absurd this hid
      · obtain ⟨hc1, hc2, hc3, hc4⟩ := handleCatch_c3 net u huid s.trace e0 he1 he2 he3'
        rw [hrun, hu] at hstart hfail ⊢
        have hidu : id = u := by
          have := (start_mem_iff _ id).mp hstart
          rw [hc3] at this
          simpa using this
        have hee : e = e0 := by
          rw [hc1] at hfail
          injection hfail.symm with hx
        subst hidu
        subst hee
        exact ⟨hc2, hc4⟩
  | none =>
    obtain ⟨hi1, hi2, hi3⟩ := (runChunks_c3 net chunks _ hInv0).1 s hrc
    cases hu : s.uploadId with
    | none =>
      rw [hu] at hi3
      have hi3' : traceStarts s.trace = [] := hi3
      have hrun : putStreamRun net chunks hdrs = putBufferCall net s.store.flatten hdrs s.trace := by
        rw [putStreamRun, hrc]
        dsimp only
        rw [hu]
        rfl
      rw [hrun] at hstart
      have : id ∈ traceStarts (putBufferCall net s.store.flatten hdrs s.trace).2 :=
        (start_mem_iff _ id).mp hstart
      rw [putBufferCall_trace, hi3'] at this
      simp at this
    | some u =>
      have hi3' : traceStarts s.trace = [u] := by rw [hi3, hu]
      by_cases huid : u = ""
      · subst huid
        have hrun : putStreamRun net chunks hdrs
            = putBufferCall net s.store.flatten hdrs s.trace := by
          rw [putStreamRun, hrc]
          dsimp only
          rw [hu]
          rfl
        rw [hrun] at hstart
        have : id ∈ traceStarts (putBufferCall net s.store.flatten hdrs s.trace).2 :=
          (start_mem_iff _ id).mp hstart
        rw [putBufferCall_trace, hi3'] at this
        simp at this
        exact absurd this hid
      · have hrun : putStreamRun net chunks hdrs = finishMultipart net s := by
          rw [putStreamRun, hrc]
          dsimp only
          rw [hu]
          simp [jsTruthyId, huid]
        rcases finishMultipart_c3 net s u hu huid ⟨hi1, hi2, hi3⟩ with
          ⟨hok1, _, hok2⟩ | ⟨e0, hf1, hf2, hf3, hf4⟩
        · rw [hrun, hok1] at hfail
          simp at hfail
        · rw [hrun] at hstart hfail ⊢
          have hidu : id = u := by
            have := (start_mem_iff _ id).mp hstart
            rw [hf3] at this
            simpa using this
          have hee : e = e0 := by
            rw [hf1] at hfail
            injection hfail.symm with hx
          subst hidu
          subst hee
          exact ⟨hf2, hf4⟩

/-- Characterization of a one-chunk run whose part upload fails: start,
failing part, abort. -/
theorem putStreamRun_one_chunk_partfail (net : Net) (c1 : List Nat) (hdrs : AWShdrs)
    (h1 : MIN_CHUNK_SIZE < c1.length) (id : String) (hid : id ≠ "")
    (hs : net.start = .ok id)
    (e : String) (hp : net.uploadPart 1 id c1 = .error e)
    (hab : net.abort id = .ok ()) :
    putStreamRun net [c1] hdrs
      = (.error (.single e),
         [.start (.ok id), .part 1 id c1 (.error e), .abortCall id (.ok ())]) := by
  have hstep : consumeChunk net ⟨[], 0, none, [], []⟩ c1
      = ({ store := [], size := 0, uploadId := some id, parts := [],
           trace := [.start (.ok id), .part 1 id c1 (.error e)] }, some e) := by
    simp [consumeChunk, h1, hs, flushPart, hp]
  have hloop : runChunks net ⟨[], 0, none, [], []⟩ [c1]
      = ({ store := [], size := 0, uploadId := some id, parts := [],
           trace := [.start (.ok id), .part 1 id c1 (.error e)] }, some e) := by
    rw [runChunks, hstep]
  rw [putStreamRun, hloop]
  dsimp only
  simp [handleCatch, jsTruthyId, hid, hab]

/-- An oracle whose part uploads always fail. -/
def netPartFail : Net :=
  ⟨.ok "U", fun _ _ _ => .error "boom", fun _ _ => .ok "F",
   fun _ => .ok (), fun _ _ => .ok "P"⟩

/-- Witness for C3: one oversized chunk, failing part upload — exactly one
abort on upload id `U`, and the original error is re-raised alone. -/
theorem c3_witness :
    (traceAborts (putStreamRun netPartFail
        [List.replicate (MIN_CHUNK_SIZE + 1) 0] ⟨none, none⟩).2).length = 1
    ∧ ((Call.abortCall "U" (.ok ()) ∈ (putStreamRun netPartFail
          [List.replicate (MIN_CHUNK_SIZE + 1) 0] ⟨none, none⟩).2
        ∧ (putStreamRun netPartFail
            [List.replicate (MIN_CHUNK_SIZE + 1) 0] ⟨none, none⟩).1
          = .error (.single "boom"))
      ∨ ∃ sub, Call.abortCall "U" (.error sub) ∈ (putStreamRun netPartFail
          [List.replicate (MIN_CHUNK_SIZE + 1) 0] ⟨none, none⟩).2
        ∧ (putStreamRun netPartFail
            [List.replicate (MIN_CHUNK_SIZE + 1) 0] ⟨none, none⟩).1
          = .error (.aggregate "boom" sub)) := by
  have hrun := putStreamRun_one_chunk_partfail netPartFail
    (List.replicate (MIN_CHUNK_SIZE + 1) 0) ⟨none, none⟩
    (by rw [List.length_replicate]; omega) "U" (by decide) rfl "boom" rfl rfl
  exact c3_abort_exactly_once netPartFail [List.replicate (MIN_CHUNK_SIZE + 1) 0]
    ⟨none, none⟩ "U" (by decide)
    (by rw [hrun]; exact List.mem_cons_self _ _) "boom" (by rw [hrun]; rfl)

/-! ## Claim C4: the committed part manifest -/

/-- The `PartNumber` lines of the completion manifest, one per part, in
part-list order (each rendered exactly as `partsXML` renders it). -/
def manifestPartNumberLines (P : List UploadPart) : List String :=
  P.map fun p => "\t" ++ ("\t<PartNumber>" ++ toString p.number ++ "</PartNumber>")

theorem manifest_sublist_aux :
    ∀ (P : List UploadPart) (tail : List String),
      List.Sublist (manifestPartNumberLines P)
        ((P.flatMap fun p => (partXML p).map (fun line => "\t" ++ line)) ++ tail) := by
  intro P
  induction P with
  | nil => intro tail; exact List.nil_sublist _
  | cons p P' ih =>
    intro tail
    rw [List.flatMap_cons, List.append_assoc]
    simp only [manifestPartNumberLines, List.map_cons]
    simp only [manifestPartNumberLines] at ih
    rcases p with ⟨n, etag, sh1, sh2⟩
    cases sh1 with
    | none =>
      cases sh2 with
      | none =>
        have hblock : (partXML ⟨n, etag, none, none⟩).map (fun line => "\t" ++ line)
            = ["\t" ++ "<Part>", "\t" ++ ("\t<ETag>" ++ etag ++ "</ETag>"),
               "\t" ++ ("\t<PartNumber>" ++ toString n ++ "</PartNumber>"),
               "\t" ++ "</Part>"] := rfl
        rw [hblock]
        simp only [List.cons_append, List.nil_append]
        exact List.Sublist.cons _ (List.Sublist.cons _
          (List.Sublist.cons₂ _ (List.Sublist.cons _ (ih tail))))
      | some y =>
        have hblock : (partXML ⟨n, etag, none, some y⟩).map (fun line => "\t" ++ line)
            = ["\t" ++ "<Part>", "\t" ++ ("\t<ChecksumSHA256>" ++ y ++ "</ChecksumSHA256>"),
               "\t" ++ ("\t<ETag>" ++ etag ++ "</ETag>"),
               "\t" ++ ("\t<PartNumber>" ++ toString n ++ "</PartNumber>"),
               "\t" ++ "</Part>"] := rfl
        rw [hblock]
        simp only [List.cons_append, List.nil_append]
        exact List.Sublist.cons _ (List.Sublist.cons _ (List.Sublist.cons _
          (List.Sublist.cons₂ _ (List.Sublist.cons _ (ih tail)))))
    | some x =>
      cases sh2 with
      | none =>
        have hblock : (partXML ⟨n, etag, some x, none⟩).map (fun line => "\t" ++ line)
            = ["\t" ++ "<Part>", "\t" ++ ("\t<ChecksumSHA1>" ++ x ++ "</ChecksumSHA1>"),
               "\t" ++ ("\t<ETag>" ++ etag ++ "</ETag>"),
               "\t" ++ ("\t<PartNumber>" ++ toString n ++ "</PartNumber>"),
               "\t" ++ "</Part>"] := rfl
        rw [hblock]
        simp only [List.cons_append, List.nil_append]
        exact List.Sublist.cons _ (List.Sublist.cons _ (List.Sublist.cons _
          (List.Sublist.cons₂ _ (List.Sublist.cons _ (ih tail)))))
      | some y =>
        have hblock : (partXML ⟨n, etag, some x, some y⟩).map (fun line => "\t" ++ line)
            = ["\t" ++ "<Part>", "\t" ++ ("\t<ChecksumSHA1>" ++ x ++ "</ChecksumSHA1>"),
               "\t" ++ ("\t<ChecksumSHA256>" ++ y ++ "</ChecksumSHA256>"),
               "\t" ++ ("\t<ETag>" ++ etag ++ "</ETag>"),
               "\t" ++ ("\t<PartNumber>" ++ toString n ++ "</PartNumber>"),
               "\t" ++ "</Part>"] := rfl
        rw [hblock]
        simp only [List.cons_append, List.nil_append]
        exact List.Sublist.cons _ (List.Sublist.cons _ (List.Sublist.cons _
          (List.Sublist.cons _ (List.Sublist.cons₂ _ (List.Sublist.cons _ (ih tail))))))

/-- The `PartNumber` lines appear in the completion manifest in part-list
order. -/
theorem manifestLines_sublist (P : List UploadPart) :
    List.Sublist (manifestPartNumberLines P) (partsXML P) := by
  have h := manifest_sublist_aux P ["</CompleteMultipartUpload>", ""]
  simp only [partsXML, List.cons_append, List.nil_append, List.append_assoc]
  exact List.Sublist.cons _ (List.Sublist.cons _ h)

theorem okParts_append (t1 t2 : List Call) :
    okParts (t1 ++ t2) = okParts t1 ++ okParts t2 :=
  List.filterMap_append t1 t2 okPartContent?

/-- Loop invariant for the manifest analysis: `length` tracks the buffered
bytes, part numbers are `1..k` in order, and each successfully uploaded
part is nonempty, one per recorded part. -/
def C4Inv (s : EngineState) : Prop :=
  s.size = s.store.flatten.length
  ∧ s.parts.map (fun p => p.number) = List.range' 1 s.parts.length
  ∧ (okParts s.trace).length = s.parts.length
  ∧ (∀ c ∈ okParts s.trace, c ≠ [])

theorem flushPart_c4 (net : Net) (s s' : EngineState)
    (hInv : C4Inv s) (hne : s.store.flatten ≠ [])
    (h : flushPart net s = (s', none)) :
    C4Inv s' ∧ s'.store = [] ∧ s'.size = 0 ∧ s'.parts.length = s.parts.length + 1
    ∧ okParts s'.trace = okParts s.trace ++ [s.store.flatten]
    ∧ s'.uploadId = s.uploadId := by
  obtain ⟨h1, h2, h3, h4⟩ := hInv
  cases hup : net.uploadPart (s.parts.length + 1) (s.uploadId.getD "") s.store.flatten with
  | error e0 => simp [flushPart, hup] at h
  | ok etag =>
    simp only [flushPart, hup] at h
    obtain ⟨hs', _⟩ := Prod.mk.injEq _ _ _ _ ▸ h
    have hok : okParts (s.trace
        ++ [Call.part (s.parts.length + 1) (s.uploadId.getD "") s.store.flatten (Except.ok etag)])
        = okParts s.trace ++ [s.store.flatten] := by
      rw [okParts_append]
      rfl
    refine ⟨⟨?_, ?_, ?_, ?_⟩, ?_, ?_, ?_, ?_, ?_⟩ <;> rw [← hs'] <;> dsimp only
    · rfl
    · rw [List.map_append, h2, List.length_append]
      simp only [List.length_singleton]
      have harith : 1 + 1 * s.parts.length = s.parts.length + 1 := by omega
      rw [List.range'_concat, harith]
      rfl
    · rw [hok, List.length_append, List.length_append, h3]
      simp
    · rw [hok]
      intro c hc
      rcases List.mem_append.mp hc with hc | hc
      · exact h4 c hc
      · rw [List.mem_singleton.mp hc]
        exact hne
    · simp
    · exact hok

theorem consumeChunk_c4 (net : Net) (s : EngineState) (c : List Nat) (s' : EngineState)
    (hInv : C4Inv s) (h : consumeChunk net s c = (s', none)) :
    C4Inv s' ∧ (okParts s'.trace).flatten ++ s'.store.flatten
      = (okParts s.trace).flatten ++ (s.store.flatten ++ c) := by
  obtain ⟨h1, h2, h3, h4⟩ := hInv
  have hflat : (s.store ++ [c]).flatten = s.store.flatten ++ c := by
    rw [List.flatten_append]
    simp
  have hInv1 : C4Inv { s with store := s.store ++ [c], size := s.size + c.length } := by
    refine ⟨?_, h2, h3, h4⟩
    dsimp only
    rw [hflat, List.length_append, h1]
  by_cases hsz : s.size + c.length > MIN_CHUNK_SIZE
  · have hne1 : (s.store ++ [c]).flatten ≠ [] := by
      rw [hflat]
      intro hx
      have hlen : s.store.flatten.length + c.length = 0 := by
        have := congrArg List.length hx
        simpa [List.length_append] using this
      rw [← h1] at hlen
      omega
    cases hu : s.uploadId with
    | some i =>
      have hred : consumeChunk net s c
          = flushPart net { s with store := s.store ++ [c], size := s.size + c.length } := by
        simp [consumeChunk, hsz, hu]
      rw [hred] at h
      obtain ⟨hi, hst, _, _, hok, _⟩ := flushPart_c4 net _ s' hInv1 hne1 h
      refine ⟨hi, ?_⟩
      rw [hok, hst]
      simp [List.flatten_append]
    | none =>
      cases hst : net.start with
      | error e0 =>
        have hred : consumeChunk net s c
            = ({ s with store := s.store ++ [c],
                        size := s.size + c.length,
                        trace := s.trace ++ [.start (.error e0)] }, some e0) := by
          simp [consumeChunk, hsz, hu, hst]
        rw [hred] at h
        simp at h
      | ok id =>
        have hInv2 : C4Inv { s with store := s.store ++ [c],
                                    size := s.size + c.length,
                                    uploadId := some id,
                                    trace := s.trace ++ [.start (.ok id)] } := by
          have hok2 : okParts (s.trace ++ [Call.start (Except.ok id)]) = okParts s.trace := by
            rw [okParts_append]
            simp [okParts, okPartContent?]
          refine ⟨?_, h2, ?_, ?_⟩ <;> dsimp only
          · rw [hflat, List.length_append, h1]
          · rw [hok2, h3]
          · rw [hok2]
            exact h4
        have hred : consumeChunk net s c
            = flushPart net { s with store := s.store ++ [c],
                                     size := s.size + c.length,
                                     uploadId := some id,
                                     trace := s.trace ++ [.start (.ok id)] } := by
          simp [consumeChunk, hsz, hu, hst]
        rw [hred] at h
        obtain ⟨hi, hstore, _, _, hok, _⟩ := flushPart_c4 net _ s' hInv2 hne1 h
        refine ⟨hi, ?_⟩
        rw [hok, hstore]
        have hz : okParts (s.trace ++ [Call.start (Except.ok id)]) = okParts s.trace := by
          rw [okParts_append]
          have hz0 : okParts [Call.start (Except.ok id)] = [] := rfl
          rw [hz0, List.append_nil]
        simp [List.flatten_append, hz]
  · have hred : consumeChunk net s c
        = ({ s with store := s.store ++ [c], size := s.size + c.length }, none) := by
      simp [consumeChunk, hsz]
    rw [hred] at h
    obtain ⟨hs', _⟩ := Prod.mk.injEq _ _ _ _ ▸ h
    refine ⟨by rw [← hs']; exact hInv1, ?_⟩
    rw [← hs']
    dsimp only
    rw [hflat]

theorem runChunks_c4 (net : Net) :
    ∀ (chunks : List (List Nat)) (s s' : EngineState), C4Inv s →
      runChunks net s chunks = (s', none) →
      C4Inv s' ∧ (okParts s'.trace).flatten ++ s'.store.flatten
        = (okParts s.trace).flatten ++ (s.store.flatten ++ chunks.flatten) := by
  intro chunks
  induction chunks with
  | nil =>
    intro s s' hInv h
    rw [runChunks] at h
    obtain ⟨hs', _⟩ := Prod.mk.injEq _ _ _ _ ▸ h
    rw [← hs']
    exact ⟨hInv, by simp⟩
  | cons c rest ih =>
    intro s s' hInv h
    rw [runChunks] at h
    rcases hcc : consumeChunk net s c with ⟨s1, o1⟩
    rw [hcc] at h
    cases o1 with
    | none =>
      obtain ⟨hi1, hacc1⟩ := consumeChunk_c4 net s c s1 hInv hcc
      obtain ⟨hi2, hacc2⟩ := ih s1 s' hi1 h
      refine ⟨hi2, ?_⟩
      rw [hacc2, ← List.append_assoc, hacc1]
      simp [List.append_assoc]
    | some e1 => simp at h

/-- No commit call appears in a trace. -/
def noCommit (tr : List Call) : Prop :=
  ∀ u P b r, Call.commitCall u P b r ∉ tr

theorem noCommit_nil : noCommit [] := by
  intro u P b r h
  simp at h

theorem noCommit_append_single (tr : List Call) (c : Call) (h : noCommit tr)
    (hc : ∀ u P b r, c ≠ Call.commitCall u P b r) : noCommit (tr ++ [c]) := by
  intro u P b r hmem
  rcases List.mem_append.mp hmem with hm | hm
  · exact h u P b r hm
  · exact hc u P b r (List.mem_singleton.mp hm).symm

theorem flushPart_noCommit (net : Net) (s s' : EngineState) (o : Option String)
    (hnc : noCommit s.trace) (h : flushPart net s = (s', o)) : noCommit s'.trace := by
  cases hup : net.uploadPart (s.parts.length + 1) (s.uploadId.getD "") s.store.flatten with
  | error e0 =>
    simp only [flushPart, hup] at h
    obtain ⟨hs', _⟩ := Prod.mk.injEq _ _ _ _ ▸ h
    rw [← hs']
    exact noCommit_append_single _ _ hnc (by intro u P b r hx; simp at hx)
  | ok etag =>
    simp only [flushPart, hup] at h
    obtain ⟨hs', _⟩ := Prod.mk.injEq _ _ _ _ ▸ h
    rw [← hs']
    exact noCommit_append_single _ _ hnc (by intro u P b r hx; simp at hx)

theorem consumeChunk_noCommit (net : Net) (s : EngineState) (c : List Nat)
    (s' : EngineState) (o : Option String)
    (hnc : noCommit s.trace) (h : consumeChunk net s c = (s', o)) : noCommit s'.trace := by
  by_cases hsz : s.size + c.length > MIN_CHUNK_SIZE
  · cases hu : s.uploadId with
    | some i =>
      have hred : consumeChunk net s c
          = flushPart net { s with store := s.store ++ [c], size := s.size + c.length } := by
        simp [consumeChunk, hsz, hu]
      rw [hred] at h
      exact flushPart_noCommit net
        { s with store := s.store ++ [c], size := s.size + c.length } s' o hnc h
    | none =>
      cases hst : net.start with
      | error e0 =>
        have hred : consumeChunk net s c
            = ({ s with store := s.store ++ [c],
                        size := s.size + c.length,
                        trace := s.trace ++ [.start (.error e0)] }, some e0) := by
          simp [consumeChunk, hsz, hu, hst]
        rw [hred] at h
        obtain ⟨hs', _⟩ := Prod.mk.injEq _ _ _ _ ▸ h
        rw [← hs']
        exact noCommit_append_single _ _ hnc (by intro u P b r hx; simp at hx)
      | ok id =>
        have hred : consumeChunk net s c
            = flushPart net { s with store := s.store ++ [c],
                                     size := s.size + c.length,
                                     uploadId := some id,
                                     trace := s.trace ++ [.start (.ok id)] } := by
          simp [consumeChunk, hsz, hu, hst]
        rw [hred] at h
        exact flushPart_noCommit net
          { s with store := s.store ++ [c], size := s.size + c.length,
                   uploadId := some id, trace := s.trace ++ [.start (.ok id)] } s' o
          (noCommit_append_single _ _ hnc (by intro u P b r hx; simp at hx)) h
  · have hred : consumeChunk net s c
        = ({ s with store := s.store ++ [c], size := s.size + c.length }, none) := by
      simp [consumeChunk, hsz]
    rw [hred] at h
    obtain ⟨hs', _⟩ := Prod.mk.injEq _ _ _ _ ▸ h
    rw [← hs']
    exact hnc

theorem runChunks_noCommit (net : Net) :
    ∀ (chunks : List (List Nat)) (s s' : EngineState) (o : Option String),
      noCommit s.trace → runChunks net s chunks = (s', o) → noCommit s'.trace := by
  intro chunks
  induction chunks with
  | nil =>
    intro s s' o hnc h
    rw [runChunks] at h
    obtain ⟨hs', _⟩ := Prod.mk.injEq _ _ _ _ ▸ h
    rw [← hs']
    exact hnc
  | cons c rest ih =>
    intro s s' o hnc h
    rw [runChunks] at h
    rcases hcc : consumeChunk net s c with ⟨s1, o1⟩
    rw [hcc] at h
    cases o1 with
    | none => exact ih s1 s' o (consumeChunk_noCommit net s c s1 none hnc hcc) h
    | some e1 =>
      obtain ⟨hs', _⟩ := Prod.mk.injEq _ _ _ _ ▸ h
      rw [← hs']
      exact consumeChunk_noCommit net s c s1 (some e1) hnc hcc

theorem handleCatch_mem (net : Net) (u : Option String) (tr : List Call) (e : String)
    (c : Call) (h : c ∈ (handleCatch net u tr e).2) :
    c ∈ tr ∨ ∃ uu rr, c = Call.abortCall uu rr := by
  by_cases ht : jsTruthyId u = true
  · cases hao : net.abort (u.getD "") with
    | ok x =>
      have hred : (handleCatch net u tr e).2 = tr ++ [.abortCall (u.getD "") (.ok ())] := by
        simp [handleCatch, ht, hao]
      rw [hred] at h
      rcases List.mem_append.mp h with hm | hm
      · exact Or.inl hm
      · exact Or.inr ⟨_, _, List.mem_singleton.mp hm⟩
    | error sub =>
      have hred : (handleCatch net u tr e).2 = tr ++ [.abortCall (u.getD "") (.error sub)] := by
        simp [handleCatch, ht, hao]
      rw [hred] at h
      rcases List.mem_append.mp h with hm | hm
      · exact Or.inl hm
      · exact Or.inr ⟨_, _, List.mem_singleton.mp hm⟩
  · have hred : (handleCatch net u tr e).2 = tr := by
      simp [handleCatch, ht]
    rw [hred] at h
    exact Or.inl h

theorem putBufferCall_mem (net : Net) (content : List Nat) (hdrs : AWShdrs) (tr : List Call)
    (c : Call) (h : c ∈ (putBufferCall net content hdrs tr).2) :
    c ∈ tr ∨ ∃ cc hh rr, c = Call.putCall cc hh rr := by
  cases hnp : net.put content
      { hdrs with contentType := some (hdrs.contentType.getD "application/octet-stream") } with
  | ok etag =>
    have hred : (putBufferCall net content hdrs tr).2
        = tr ++ [.putCall content
            { hdrs with contentType := some (hdrs.contentType.getD "application/octet-stream") }
            (.ok etag)] := by
      simp [putBufferCall, hnp]
    rw [hred] at h
    rcases List.mem_append.mp h with hm | hm
    · exact Or.inl hm
    · exact Or.inr ⟨_, _, _, List.mem_singleton.mp hm⟩
  | error e =>
    have hred : (putBufferCall net content hdrs tr).2
        = tr ++ [.putCall content
            { hdrs with contentType := some (hdrs.contentType.getD "application/octet-stream") }
            (.error e)] := by
      simp [putBufferCall, hnp]
    rw [hred] at h
    rcases List.mem_append.mp h with hm | hm
    · exact Or.inl hm
    · exact Or.inr ⟨_, _, _, List.mem_singleton.mp hm⟩

theorem handleCatch_okParts (net : Net) (u : Option String) (tr : List Call) (e : String) :
    okParts (handleCatch net u tr e).2 = okParts tr := by
  by_cases ht : jsTruthyId u = true
  · cases hao : net.abort (u.getD "") with
    | ok x =>
      have hred : (handleCatch net u tr e).2 = tr ++ [.abortCall (u.getD "") (.ok ())] := by
        simp [handleCatch, ht, hao]
      rw [hred, okParts_append]
      have hz : okParts [Call.abortCall (u.getD "") (Except.ok ())] = [] := rfl
      rw [hz, List.append_nil]
    | error sub =>
      have hred : (handleCatch net u tr e).2 = tr ++ [.abortCall (u.getD "") (.error sub)] := by
        simp [handleCatch, ht, hao]
      rw [hred, okParts_append]
      have hz : okParts [Call.abortCall (u.getD "") (Except.error sub)] = [] := rfl
      rw [hz, List.append_nil]
  · have hred : (handleCatch net u tr e).2 = tr := by
      simp [handleCatch, ht]
    rw [hred]

/-- Claim C4: the part list passed to the commit call carries part numbers
exactly `1..N` in ascending order, their `PartNumber` lines appear in that
order in the completion XML manifest, the successfully uploaded part
contents concatenate to exactly the input bytes (a nonzero remainder is
flushed as the final part), and every uploaded part is nonempty (a zero
remainder adds no part). -/
theorem c4_commit_parts_contiguous (net : Net) (chunks : List (List Nat)) (hdrs : AWShdrs)
    (u : String) (P : List UploadPart) (body : String) (r : Except String String)
    (hmem : Call.commitCall u P body r ∈ (putStreamRun net chunks hdrs).2) :
    P.map (fun p => p.number) = List.range' 1 P.length
    ∧ body = commitBody P
    ∧ List.Sublist (manifestPartNumberLines P) (partsXML P)
    ∧ (okParts (putStreamRun net chunks hdrs).2).flatten = chunks.flatten
    ∧ (∀ c ∈ okParts (putStreamRun net chunks hdrs).2, c ≠ [])
    ∧ (okParts (putStreamRun net chunks hdrs).2).length = P.length := by
  have hInv0 : C4Inv ⟨[], 0, none, [], []⟩ :=
    ⟨rfl, rfl, rfl, by intro c hc; simp [okParts, okPartContent?] at hc⟩
  rcases hrc : runChunks net ⟨[], 0, none, [], []⟩ chunks with ⟨s, o⟩
  have hNCs : noCommit s.trace := runChunks_noCommit net chunks _ s o noCommit_nil hrc
  cases o with
  | some e0 =>
    have hrun : putStreamRun net chunks hdrs = handleCatch net s.uploadId s.trace e0 := by
      rw [putStreamRun, hrc]
    rw [hrun] at hmem
    rcases handleCatch_mem net s.uploadId s.trace e0 _ hmem with hm | ⟨uu, rr, habs⟩
    · exact absurd hm (hNCs u P body r)
    · simp at habs
  | none =>
    obtain ⟨hInvS, hAccS⟩ := runChunks_c4 net chunks _ s hInv0 hrc
    have hAcc : (okParts s.trace).flatten ++ s.store.flatten = chunks.flatten := by
      simpa using hAccS
    cases htr : jsTruthyId s.uploadId with
    | false =>
      have hrun : putStreamRun net chunks hdrs
          = putBufferCall net s.store.flatten hdrs s.trace := by
        rw [putStreamRun, hrc]
        dsimp only
        rw [htr]
        rfl
      rw [hrun] at hmem
      rcases putBufferCall_mem net s.store.flatten hdrs s.trace _ hmem with hm | ⟨cc, hh, rr, habs⟩
      · exact absurd hm (hNCs u P body r)
      · simp at habs
    | true =>
      have hrun : putStreamRun net chunks hdrs = finishMultipart net s := by
        rw [putStreamRun, hrc]
        dsimp only
        rw [htr]
        rfl
      rw [hrun] at hmem ⊢
      rcases hmid : (if s.size ≠ 0 then flushPart net s else (s, none)) with ⟨s1, o1⟩
      have hfin0 : finishMultipart net s
          = (match (s1, o1) with
            | (s', some e) => handleCatch net s'.uploadId s'.trace e
            | (s', none) =>
              match net.commit (s.uploadId.getD "") s'.parts with
              | .error e =>
                handleCatch net s'.uploadId
                  (s'.trace ++ [.commitCall (s.uploadId.getD "") s'.parts
                    (commitBody s'.parts) (.error e)]) e
              | .ok etag =>
                (.ok etag, s'.trace ++ [.commitCall (s.uploadId.getD "") s'.parts
                  (commitBody s'.parts) (.ok etag)])) := by
        rw [finishMultipart, hmid]
      have hmid' :
          (o1 = none → C4Inv s1 ∧ s1.store.flatten = []
            ∧ (okParts s1.trace).flatten = chunks.flatten ∧ noCommit s1.trace)
          ∧ (∀ e1, o1 = some e1 → noCommit s1.trace) := by
        by_cases hsz : s.size ≠ 0
        · rw [if_pos hsz] at hmid
          constructor
          · intro ho
            rw [ho] at hmid
            have hne : s.store.flatten ≠ [] := by
              intro hx
              apply hsz
              rw [hInvS.1, hx]
              rfl
            obtain ⟨hi, hst, _, _, hok, _⟩ := flushPart_c4 net s s1 hInvS hne hmid
            refine ⟨hi, by rw [hst]; rfl, ?_, flushPart_noCommit net s s1 none hNCs hmid⟩
            rw [hok, List.flatten_append]
            simpa using hAcc
          · intro e1 ho
            rw [ho] at hmid
            exact flushPart_noCommit net s s1 (some e1) hNCs hmid
        · rw [if_neg hsz] at hmid
          obtain ⟨hs1, ho1⟩ := Prod.mk.injEq _ _ _ _ ▸ hmid
          constructor
          · intro _
            have hzero : s.size = 0 := by omega
            have hflatnil : s.store.flatten = [] := by
              have hlz : s.store.flatten.length = 0 := by
                rw [← hInvS.1]
                exact hzero
              exact List.eq_nil_of_length_eq_zero hlz
            have hAcc' : (okParts s.trace).flatten = chunks.flatten := by
              rw [hflatnil, List.append_nil] at hAcc
              exact hAcc
            rw [← hs1]
            exact ⟨hInvS, hflatnil, hAcc', hNCs⟩
          · intro e1 ho
            rw [ho] at ho1
            simp at ho1
      cases o1 with
      | some e1 =>
        have hfin : finishMultipart net s = handleCatch net s1.uploadId s1.trace e1 := by
          rw [hfin0]
        rw [hfin] at hmem
        rcases handleCatch_mem net s1.uploadId s1.trace e1 _ hmem with hm | ⟨uu, rr, habs⟩
        · exact absurd hm ((hmid'.2 e1 rfl) u P body r)
        · simp at habs
      | none =>
        obtain ⟨hi1, hstore1, hok1, hnc1⟩ := hmid'.1 rfl
        obtain ⟨hi1a, hi1b, hi1c, hi1d⟩ := hi1
        cases hcm : net.commit (s.uploadId.getD "") s1.parts with
        | ok etag =>
          have hfin : finishMultipart net s
              = (.ok etag, s1.trace ++ [.commitCall (s.uploadId.getD "") s1.parts
                  (commitBody s1.parts) (.ok etag)]) := by
            rw [hfin0]
            dsimp only
            rw [hcm]
          rw [hfin] at hmem ⊢
          have hokfin : okParts (s1.trace ++ [Call.commitCall (s.uploadId.getD "") s1.parts
              (commitBody s1.parts) (Except.ok etag)]) = okParts s1.trace := by
            rw [okParts_append]
            have hz : okParts [Call.commitCall (s.uploadId.getD "") s1.parts
                (commitBody s1.parts) (Except.ok etag)] = [] := rfl
            rw [hz, List.append_nil]
          rcases List.mem_append.mp hmem with hm | hm
          · exact absurd hm (hnc1 u P body r)
          · have heq := List.mem_singleton.mp hm
            injection heq with hqu hqP hqb hqr
            subst hqP
            refine ⟨hi1b, hqb, manifestLines_sublist s1.parts, ?_, ?_, ?_⟩ <;> dsimp only <;> rw [hokfin]
            · exact hok1
            · exact hi1d
            · exact hi1c
        | error e2 =>
          have hfin : finishMultipart net s
              = handleCatch net s1.uploadId
                  (s1.trace ++ [.commitCall (s.uploadId.getD "") s1.parts
                    (commitBody s1.parts) (.error e2)]) e2 := by
            rw [hfin0]
            dsimp only
            rw [hcm]
          rw [hfin] at hmem ⊢
          have hokfin : okParts (handleCatch net s1.uploadId
              (s1.trace ++ [Call.commitCall (s.uploadId.getD "") s1.parts
                (commitBody s1.parts) (Except.error e2)]) e2).2
              = okParts s1.trace := by
            rw [handleCatch_okParts, okParts_append]
            have hz : okParts [Call.commitCall (s.uploadId.getD "") s1.parts
                (commitBody s1.parts) (Except.error e2)] = [] := rfl
            rw [hz, List.append_nil]
          rcases handleCatch_mem net s1.uploadId _ e2 _ hmem with hm | ⟨uu, rr, habs⟩
          · rcases List.mem_append.mp hm with hm2 | hm2
            · exact absurd hm2 (hnc1 u P body r)
            · have heq := List.mem_singleton.mp hm2
              injection heq with hqu hqP hqb hqr
              subst hqP
              refine ⟨hi1b, hqb, manifestLines_sublist s1.parts, ?_, ?_, ?_⟩ <;> rw [hokfin]
              · exact hok1
              · exact hi1d
              · exact hi1c
          · simp at habs

/-- Characterization of a two-chunk run that commits: oversized first
chunk (start + part 1), small nonzero second chunk flushed as the final
part, then the commit. -/
theorem putStreamRun_two_chunk_commit (net : Net) (c1 c2 : List Nat) (hdrs : AWShdrs)
    (h1 : MIN_CHUNK_SIZE < c1.length) (h2 : ¬MIN_CHUNK_SIZE < c2.length)
    (h2' : c2.length ≠ 0) (id : String) (hid : id ≠ "") (hs : net.start = .ok id)
    (e1 e2 f : String)
    (hp1 : net.uploadPart 1 id c1 = .ok e1)
    (hp2 : net.uploadPart 2 id c2 = .ok e2)
    (hc : net.commit id [⟨1, e1, none, none⟩, ⟨2, e2, none, none⟩] = .ok f) :
    putStreamRun net [c1, c2] hdrs
      = (.ok f,
         [.start (.ok id), .part 1 id c1 (.ok e1), .part 2 id c2 (.ok e2),
          .commitCall id [⟨1, e1, none, none⟩, ⟨2, e2, none, none⟩]
            (commitBody [⟨1, e1, none, none⟩, ⟨2, e2, none, none⟩]) (.ok f)]) := by
  have step1 : consumeChunk net ⟨[], 0, none, [], []⟩ c1
      = (⟨[], 0, some id, [⟨1, e1, none, none⟩],
          [.start (.ok id), .part 1 id c1 (.ok e1)]⟩, none) := by
    simp [consumeChunk, h1, hs, flushPart, hp1]
  have step2 : consumeChunk net
      ⟨[], 0, some id, [⟨1, e1, none, none⟩], [.start (.ok id), .part 1 id c1 (.ok e1)]⟩ c2
      = (⟨[c2], c2.length, some id, [⟨1, e1, none, none⟩],
          [.start (.ok id), .part 1 id c1 (.ok e1)]⟩, none) := by
    simp [consumeChunk, h2]
  have hloop : runChunks net ⟨[], 0, none, [], []⟩ [c1, c2]
      = (⟨[c2], c2.length, some id, [⟨1, e1, none, none⟩],
          [.start (.ok id), .part 1 id c1 (.ok e1)]⟩, none) := by
    rw [runChunks, step1]
    dsimp only
    rw [runChunks, step2]
    dsimp only
    rw [runChunks]
  rw [putStreamRun, hloop]
  dsimp only
  simp only [jsTruthyId, hid]
  rw [if_pos (by simp [hid])]
  simp [finishMultipart, h2', flushPart, hp2, hc]

/-- An all-success oracle with fixed etags, for the C4 witness. -/
def netC4 : Net :=
  ⟨.ok "U", fun _ _ _ => .ok "e", fun _ _ => .ok "F", fun _ => .ok (), fun _ _ => .ok "P"⟩

/-- Witness for C4: an oversized chunk plus a one-byte remainder commits
parts numbered exactly 1, 2, and the uploaded contents concatenate to the
input bytes. -/
theorem c4_witness :
    ([(⟨1, "e", none, none⟩ : UploadPart), ⟨2, "e", none, none⟩].map (fun p => p.number)
      = List.range' 1 2)
    ∧ (okParts (putStreamRun netC4
        [List.replicate (MIN_CHUNK_SIZE + 1) 0, [7]] ⟨none, none⟩).2).flatten
      = [List.replicate (MIN_CHUNK_SIZE + 1) 0, [7]].flatten := by
  have hrun := putStreamRun_two_chunk_commit netC4
    (List.replicate (MIN_CHUNK_SIZE + 1) 0) [7] ⟨none, none⟩
    (by rw [List.length_replicate]; omega) (by decide) (by decide)
    "U" (by decide) rfl "e" "e" "F" rfl rfl rfl
  have happ := c4_commit_parts_contiguous netC4
    [List.replicate (MIN_CHUNK_SIZE + 1) 0, [7]] ⟨none, none⟩
    "U" [⟨1, "e", none, none⟩, ⟨2, "e", none, none⟩]
    (commitBody [⟨1, "e", none, none⟩, ⟨2, "e", none, none⟩]) (.ok "F")
    (by rw [hrun]; simp)
  exact ⟨happ.1, happ.2.2.2.1⟩

end S3
